import Mathlib

/-!
Verification development for the portfolio_manager backend.

Shallow embedding of:
 * the bond valuer (`app/core/bonds.py`): 30/360 day count, coupon lattice
   walks, accrued interest, bond valuation, coupon payment generation;
 * the NAV reconstruction engine, TRANSACTION branch
   (`app/core/engine.py`, `PortfolioEngine._calculate_nav_history_impl`):
   initial-cash inference, suggested-deposit heuristic, calendar
   construction, the day-by-day replay (transactions, stale-ticker
   liquidation/freeze, bonds), and the NAV/cash/coupon/maturity series;
 * the engine object's request-scoped caches (`calculate_nav_history`
   memoization, `set_stale_ticker_handling` invalidation,
   `get_liquidation_events`), as a state machine;
 * indicator functions: `calculate_var` (historical VaR via the
   numpy linear-interpolation percentile), the basic indicator
   `total_return`, and the benchmark-comparison bundle
   (`correlation_beta.py`, `ratios.py`, `aggregator.py`).

Conventions of the embedding:
 * Python floats are modelled exactly: money and quantities by `ℚ`;
   metrics whose formulas take square roots (volatility and everything
   derived from it) by `ℝ`.
 * `datetime.date` is modelled by a `y/m/d` record of integers with the
   lexicographic order; `relativedelta(months=k)` is month-index
   arithmetic with the day clamped to the length of the target month,
   exactly as dateutil computes it.
 * pandas Timestamps (transaction datetimes) carry a date plus a
   seconds-within-day field; `.floor('min')` truncates the seconds.
 * A price DataFrame for one symbol is a list of (date, close) rows in
   ascending date order (the shape the price provider returns).
   The pandas pipeline of the transaction branch - build a frame on the
   union of the symbols' indexes, drop rows before the start date,
   `ffill`, then `reindex(all_dates, method='ffill')` - reads, for a
   symbol and a calendar day `dt`, the close of the latest row of that
   symbol with `start ≤ row date ≤ dt`, and NaN when no such row
   exists; `lastCloseInRange` below is exactly that reading.
 * Python dicts keep insertion order; they are modelled by association
   lists updated in place.
-/

/-! ## Dates and datetimes -/

/-- A calendar date (`datetime.date`): year, month, day as integers. -/
structure Date where
  y : Int
  m : Int
  d : Int
deriving DecidableEq

/-- Lexicographic order on dates, matching Python date comparison. -/
def Date.le (a b : Date) : Prop :=
  a.y < b.y ∨ (a.y = b.y ∧ (a.m < b.m ∨ (a.m = b.m ∧ a.d ≤ b.d)))

/-- Strict lexicographic order on dates. -/
def Date.lt (a b : Date) : Prop :=
  a.y < b.y ∨ (a.y = b.y ∧ (a.m < b.m ∨ (a.m = b.m ∧ a.d < b.d)))

instance decDateLe : DecidableRel Date.le := fun a b =>
  inferInstanceAs (Decidable
    (a.y < b.y ∨ (a.y = b.y ∧ (a.m < b.m ∨ (a.m = b.m ∧ a.d ≤ b.d)))))

instance decDateLt : DecidableRel Date.lt := fun a b =>
  inferInstanceAs (Decidable
    (a.y < b.y ∨ (a.y = b.y ∧ (a.m < b.m ∨ (a.m = b.m ∧ a.d < b.d)))))

instance : IsTotal Date Date.le :=
  ⟨fun a b => by unfold Date.le; omega⟩

instance : IsTrans Date Date.le :=
  ⟨fun a b c hab hbc => by unfold Date.le at *; omega⟩

theorem Date.le_trans {a b c : Date} (h1 : Date.le a b) (h2 : Date.le b c) :
    Date.le a c := by
  unfold Date.le at *; omega

theorem Date.le_refl (a : Date) : Date.le a a := by
  unfold Date.le; omega

theorem Date.not_lt_of_le {a b : Date} (h : Date.le a b) : ¬ Date.lt b a := by
  unfold Date.le Date.lt at *; omega

theorem Date.lt_iff_le_not_le {a b : Date} :
    Date.lt a b ↔ (Date.le a b ∧ ¬ Date.le b a) := by
  unfold Date.le Date.lt
  omega

theorem Date.le_of_lt {a b : Date} (h : Date.lt a b) : Date.le a b := by
  unfold Date.le Date.lt at *; omega

theorem Date.le_of_not_lt {a b : Date} (h : ¬ Date.lt a b) : Date.le b a := by
  unfold Date.le Date.lt at *; omega

theorem Date.lt_of_le_of_lt {a b c : Date} (h1 : Date.le a b)
    (h2 : Date.lt b c) : Date.lt a c := by
  unfold Date.le Date.lt at *; omega

theorem Date.lt_irrefl (a : Date) : ¬ Date.lt a a := by
  unfold Date.lt; omega

/-- A pandas Timestamp: a date plus seconds within the day. -/
structure DateTime where
  date : Date
  sec : Int
deriving DecidableEq

/-- Timestamp comparison: lexicographic on (date, second). -/
def DateTime.le (a b : DateTime) : Prop :=
  a.date.y < b.date.y ∨ (a.date.y = b.date.y ∧
    (a.date.m < b.date.m ∨ (a.date.m = b.date.m ∧
      (a.date.d < b.date.d ∨ (a.date.d = b.date.d ∧ a.sec ≤ b.sec)))))

instance decDateTimeLe : DecidableRel DateTime.le := fun a b =>
  inferInstanceAs (Decidable
    (a.date.y < b.date.y ∨ (a.date.y = b.date.y ∧
      (a.date.m < b.date.m ∨ (a.date.m = b.date.m ∧
        (a.date.d < b.date.d ∨ (a.date.d = b.date.d ∧ a.sec ≤ b.sec)))))))

instance : IsTotal DateTime DateTime.le :=
  ⟨fun a b => by unfold DateTime.le; omega⟩

instance : IsTrans DateTime DateTime.le :=
  ⟨fun a b c hab hbc => by unfold DateTime.le at *; omega⟩

/-- `Timestamp.floor('min')`: truncate the seconds to a whole minute. -/
def DateTime.floorMin (t : DateTime) : DateTime :=
  ⟨t.date, t.sec - t.sec % 60⟩

/-! ## Month arithmetic (dateutil `relativedelta(months=k)`) -/

/-- Number of months from year 0, month 1. -/
def monthIndex (dt : Date) : Int := dt.y * 12 + (dt.m - 1)

/-- Gregorian leap-year rule. -/
def isLeap (y : Int) : Bool := (y % 4 == 0 && y % 100 != 0) || (y % 400 == 0)

/-- Length of a month in the Gregorian calendar. -/
def daysInMonth (y m : Int) : Int :=
  if m = 2 then (if isLeap y then 29 else 28)
  else if m = 4 ∨ m = 6 ∨ m = 9 ∨ m = 11 then 30
  else 31

/-- `dt - relativedelta(months=k)`: step the month index back by `k` and
clamp the day to the length of the target month, as dateutil does. -/
def subRelMonths (dt : Date) (k : Int) : Date :=
  let t := monthIndex dt - k
  let y := t / 12
  let m := t % 12 + 1
  ⟨y, m, min dt.d (daysInMonth y m)⟩

/-- `dt + relativedelta(months=k)`. -/
def addRelMonths (dt : Date) (k : Int) : Date :=
  let t := monthIndex dt + k
  let y := t / 12
  let m := t % 12 + 1
  ⟨y, m, min dt.d (daysInMonth y m)⟩

theorem monthIndex_subRelMonths (dt : Date) (k : Int) :
    monthIndex (subRelMonths dt k) = monthIndex dt - k := by
  simp only [subRelMonths, monthIndex]
  have h := Int.ediv_add_emod (dt.y * 12 + (dt.m - 1) - k) 12
  omega

theorem monthIndex_addRelMonths (dt : Date) (k : Int) :
    monthIndex (addRelMonths dt k) = monthIndex dt + k := by
  simp only [addRelMonths, monthIndex]
  have h := Int.ediv_add_emod (dt.y * 12 + (dt.m - 1) + k) 12
  omega

/-- A month produced by `subRelMonths` is a real month number. -/
theorem subRelMonths_month_valid (dt : Date) (k : Int) :
    1 ≤ (subRelMonths dt k).m ∧ (subRelMonths dt k).m ≤ 12 := by
  simp only [subRelMonths]
  constructor
  · have := Int.emod_nonneg (monthIndex dt - k) (by norm_num : (12:Int) ≠ 0)
    omega
  · have := Int.emod_lt_of_pos (monthIndex dt - k) (by norm_num : (0:Int) < 12)
    omega

/-- Dates in valid months compare by month index first. -/
theorem Date.lt_of_monthIndex_lt {a b : Date} (hm1 : 1 ≤ a.m) (hm2 : a.m ≤ 12)
    (hm3 : 1 ≤ b.m) (hm4 : b.m ≤ 12) (h : monthIndex a < monthIndex b) :
    Date.lt a b := by
  unfold monthIndex at h
  unfold Date.lt
  omega

/-! ## Bond valuer (`app/core/bonds.py`) -/

/-- `PaymentFrequency` enum values: 0, 1, 2, 4 or 12 coupons per year. -/
abbrev PaymentFrequency := Int

/-- `get_months_per_period`. -/
def get_months_per_period (frequency : PaymentFrequency) : Int :=
  if frequency = 0 then 0
  else if frequency = 1 then 12
  else if frequency = 2 then 6
  else if frequency = 4 then 3
  else if frequency = 12 then 1
  else 0

/-- `BondPosition` (the fields the bond valuer and engine read). -/
structure BondPosition where
  id : Int
  face_value : ℚ
  coupon_rate : ℚ
  maturity_date : Date
  payment_frequency : PaymentFrequency
  purchase_price : ℚ
  purchase_quantity : ℚ
  purchase_date : Date
  current_price : Option ℚ
deriving DecidableEq

/-- The backward walk shared by `get_last_coupon_date` and the first loop
of `get_coupon_dates`: `while current > reference_date: current -= months`.
The two extra guard conjuncts (`1 ≤ mstep`, month-index comparison) hold
on every call the Python code makes (the step is 1/3/6/12 months and the
dates are real calendar dates), and make the recursion terminating. -/
def lastCouponWalk (reference_date : Date) (mstep : Int) (cur : Date) : Date :=
  if _h : 1 ≤ mstep ∧ Date.lt reference_date cur ∧
      monthIndex reference_date ≤ monthIndex cur then
    lastCouponWalk reference_date mstep (subRelMonths cur mstep)
  else cur
termination_by (monthIndex cur - monthIndex reference_date + 1).toNat
decreasing_by
  simp only [monthIndex_subRelMonths]
  omega

/-- `get_last_coupon_date`. -/
def get_last_coupon_date (maturity_date : Date)
    (payment_frequency : PaymentFrequency) (reference_date : Date) :
    Option Date :=
  if payment_frequency = 0 then none
  else
    let mstep := get_months_per_period payment_frequency
    if mstep = 0 then none
    else some (lastCouponWalk reference_date mstep maturity_date)

/-- The forward collecting loop of `get_coupon_dates`:
`while current <= end_date: collect if in range; current += months`.
Guards as in `lastCouponWalk`. -/
def couponCollect (start_date end_date maturity_date : Date) (mstep : Int)
    (cur : Date) : List Date :=
  if _h : 1 ≤ mstep ∧ Date.le cur end_date ∧
      monthIndex cur ≤ monthIndex end_date then
    (if Date.le start_date cur ∧ Date.le cur maturity_date then [cur] else [])
      ++ couponCollect start_date end_date maturity_date mstep
        (addRelMonths cur mstep)
  else []
termination_by (monthIndex end_date - monthIndex cur + 1).toNat
decreasing_by
  simp only [monthIndex_addRelMonths]
  omega

/-- `get_coupon_dates`: walk back below the start, step forward once if the
walk overshot, then collect coupon dates up to `end_date` (the final
`sorted(...)` of the source is applied verbatim). -/
def get_coupon_dates (maturity_date : Date)
    (payment_frequency : PaymentFrequency) (start_date end_date : Date) :
    List Date :=
  if payment_frequency = 0 then []
  else
    let mstep := get_months_per_period payment_frequency
    if mstep = 0 then []
    else
      let c0 := lastCouponWalk start_date mstep maturity_date
      let c1 := if Date.lt c0 start_date then addRelMonths c0 mstep else c0
      List.insertionSort Date.le
        (couponCollect start_date end_date maturity_date mstep c1)

/-- `days_30_360`: the 30/360 day count exactly as the source computes it
(`d1 = min(start.day, 30)`; `d2 = end.day if d1 < 30 else min(end.day, 30)`). -/
def days_30_360 (start finish : Date) : Int :=
  let d1 := min start.d 30
  let d2 := if d1 < 30 then finish.d else min finish.d 30
  360 * (finish.y - start.y) + 30 * (finish.m - start.m) + (d2 - d1)

/-- `calculate_accrued_interest_per_100`. -/
def calculate_accrued_interest_per_100 (bond : BondPosition)
    (valuation_date : Date) : ℚ :=
  if bond.payment_frequency = 0 then 0
  else if Date.le bond.maturity_date valuation_date then 0
  else
    match get_last_coupon_date bond.maturity_date bond.payment_frequency
        valuation_date with
    | none => 0
    | some last_coupon =>
        bond.coupon_rate * ((days_30_360 last_coupon valuation_date : Int) : ℚ)
          / 360

/-- `calculate_bond_value` (with the optional clean-price override). -/
def calculate_bond_value (bond : BondPosition) (valuation_date : Date)
    (clean_price : Option ℚ := none) : ℚ :=
  if Date.lt valuation_date bond.purchase_date then 0
  else if Date.le bond.maturity_date valuation_date then
    bond.face_value * bond.purchase_quantity
  else
    let price :=
      match clean_price with
      | some p => p
      | none =>
        match bond.current_price with
        | some cp => cp
        | none => bond.purchase_price
    let accrued_per_100 := calculate_accrued_interest_per_100 bond
      valuation_date
    (price + accrued_per_100) / 100 * bond.face_value * bond.purchase_quantity

/-- `generate_coupon_payments`. -/
def generate_coupon_payments (bond : BondPosition)
    (start_date end_date : Date) : List (Date × ℚ) :=
  if bond.payment_frequency = 0 then []
  else
    let ds := get_coupon_dates bond.maturity_date bond.payment_frequency
      start_date end_date
    let coupon_per_period := bond.face_value * (bond.coupon_rate / 100)
      * bond.purchase_quantity / ((bond.payment_frequency : Int) : ℚ)
    (ds.filter (fun d => decide (Date.le bond.purchase_date d))).map
      (fun d => (d, coupon_per_period))

/-- `calculate_bond_cost_basis`: dirty price at purchase times face times
quantity over 100. -/
def calculate_bond_cost_basis (bond : BondPosition) : ℚ :=
  let accrued := calculate_accrued_interest_per_100 bond bond.purchase_date
  (bond.purchase_price + accrued) / 100 * bond.face_value
    * bond.purchase_quantity

/-- The coupon lattice of a bond: `k` whole coupon periods backward from
maturity, stepped one period at a time exactly as the source's loops step
(so the day-of-month clamping of intermediate short months is respected). -/
def couponLatticeDate (maturity_date : Date) (mstep : Int) (k : Nat) : Date :=
  (fun d => subRelMonths d mstep)^[k] maturity_date

theorem couponLatticeDate_zero (mat : Date) (mstep : Int) :
    couponLatticeDate mat mstep 0 = mat := rfl

theorem couponLatticeDate_succ (mat : Date) (mstep : Int) (k : Nat) :
    couponLatticeDate mat mstep (k + 1)
      = subRelMonths (couponLatticeDate mat mstep k) mstep :=
  Function.iterate_succ_apply' _ _ _

theorem couponLatticeDate_monthIndex (mat : Date) (mstep : Int) (k : Nat) :
    monthIndex (couponLatticeDate mat mstep k)
      = monthIndex mat - (k : Int) * mstep := by
  induction k with
  | zero => simp [couponLatticeDate_zero]
  | succ k ih =>
      rw [couponLatticeDate_succ, monthIndex_subRelMonths, ih]
      push_cast
      ring

theorem couponLatticeDate_month_valid (mat : Date) (mstep : Int)
    (hm1 : 1 ≤ mat.m) (hm2 : mat.m ≤ 12) (k : Nat) :
    1 ≤ (couponLatticeDate mat mstep k).m
      ∧ (couponLatticeDate mat mstep k).m ≤ 12 := by
  cases k with
  | zero => exact ⟨hm1, hm2⟩
  | succ k =>
      rw [couponLatticeDate_succ]
      exact subRelMonths_month_valid _ _

theorem couponLatticeDate_lt (mat : Date) (mstep : Int) (hs : 1 ≤ mstep)
    (hm1 : 1 ≤ mat.m) (hm2 : mat.m ≤ 12) {j k : Nat} (hjk : j < k) :
    Date.lt (couponLatticeDate mat mstep k) (couponLatticeDate mat mstep j) := by
  have hj := couponLatticeDate_month_valid mat mstep hm1 hm2 j
  have hk := couponLatticeDate_month_valid mat mstep hm1 hm2 k
  apply Date.lt_of_monthIndex_lt hk.1 hk.2 hj.1 hj.2
  rw [couponLatticeDate_monthIndex, couponLatticeDate_monthIndex]
  have : (j : Int) * mstep < (k : Int) * mstep := by
    apply mul_lt_mul_of_pos_right
    · exact_mod_cast hjk
    · omega
  omega

/-- The backward walk of `get_last_coupon_date` stops exactly on a coupon
lattice date: walking back from maturity while still strictly past the
reference lands on the reference when the reference is itself `k` whole
periods before maturity. -/
theorem lastCouponWalk_lattice (mat : Date) (mstep : Int) (hs : 1 ≤ mstep)
    (hm1 : 1 ≤ mat.m) (hm2 : mat.m ≤ 12) (k : Nat) :
    ∀ n j : Nat, j ≤ k → k - j = n →
      lastCouponWalk (couponLatticeDate mat mstep k) mstep
        (couponLatticeDate mat mstep j) = couponLatticeDate mat mstep k := by
  intro n
  induction n with
  | zero =>
      intro j hj hn
      have hjk : j = k := by omega
      subst hjk
      rw [lastCouponWalk]
      rw [dif_neg]
      intro hcontra
      exact Date.lt_irrefl _ hcontra.2.1
  | succ n ih =>
      intro j hj hn
      have hjk : j < k := by omega
      rw [lastCouponWalk]
      rw [dif_pos]
      · rw [← couponLatticeDate_succ]
        exact ih (j + 1) (by omega) (by omega)
      · refine ⟨hs, couponLatticeDate_lt mat mstep hs hm1 hm2 hjk, ?_⟩
        rw [couponLatticeDate_monthIndex, couponLatticeDate_monthIndex]
        have : (j : Int) * mstep ≤ (k : Int) * mstep := by
          apply mul_le_mul_of_nonneg_right
          · exact_mod_cast Nat.le_of_lt hjk
          · omega
        omega

theorem days_30_360_self (dt : Date) : days_30_360 dt dt = 0 := by
  simp only [days_30_360]
  split_ifs <;> omega

theorem get_months_per_period_cases (f : PaymentFrequency) :
    get_months_per_period f = 0 ∨ 1 ≤ get_months_per_period f := by
  unfold get_months_per_period
  split_ifs <;> omega

/-- Accrued interest per 100 face vanishes on every coupon lattice date. -/
theorem accrued_interest_zero_on_lattice (bond : BondPosition)
    (hm1 : 1 ≤ bond.maturity_date.m) (hm2 : bond.maturity_date.m ≤ 12)
    (k : Nat) :
    calculate_accrued_interest_per_100 bond
      (couponLatticeDate bond.maturity_date
        (get_months_per_period bond.payment_frequency) k) = 0 := by
  unfold calculate_accrued_interest_per_100
  by_cases hz : bond.payment_frequency = 0
  · rw [if_pos hz]
  rw [if_neg hz]
  set mstep := get_months_per_period bond.payment_frequency with hmstep
  set c := couponLatticeDate bond.maturity_date mstep k with hc
  by_cases hmat : Date.le bond.maturity_date c
  · rw [if_pos hmat]
  rw [if_neg hmat]
  unfold get_last_coupon_date
  rw [if_neg hz]
  rcases get_months_per_period_cases bond.payment_frequency with h0 | h1
  · rw [← hmstep, if_pos h0]
  · rw [← hmstep, if_neg (by omega)]
    have hwalk := lastCouponWalk_lattice bond.maturity_date mstep h1 hm1 hm2
      k (k - 0) 0 (Nat.zero_le k) rfl
    rw [couponLatticeDate_zero] at hwalk
    rw [← hc] at hwalk
    simp only [hwalk, ← hc, days_30_360_self]
    norm_num

/-- At or after maturity (for a bond purchased no later than maturity) the
bond's value is exactly the redemption amount. -/
theorem bond_value_at_or_after_maturity (bond : BondPosition) (d : Date)
    (hp : Date.le bond.purchase_date bond.maturity_date)
    (hd : Date.le bond.maturity_date d) :
    calculate_bond_value bond d = bond.face_value * bond.purchase_quantity := by
  unfold calculate_bond_value
  have h1 : ¬ Date.lt d bond.purchase_date :=
    Date.not_lt_of_le (Date.le_trans hp hd)
  rw [if_neg h1, if_pos hd]

/-- C5: for every bond position with `purchase_date ≤ maturity_date` (and a
real calendar month in the maturity date), `calculate_bond_value bond d`
equals exactly `face_value × purchase_quantity` for every valuation date
`d ≥ maturity_date`, and `calculate_accrued_interest_per_100` is exactly 0
on every coupon date (every date `k` whole coupon periods backward from
maturity, the lattice `get_last_coupon_date` itself walks), which is the
reset-to-zero of the accrual immediately at/after each coupon date. -/
theorem C5_bond_redemption_and_accrual_reset (bond : BondPosition) (d : Date)
    (k : Nat)
    (hp : Date.le bond.purchase_date bond.maturity_date)
    (hm1 : 1 ≤ bond.maturity_date.m) (hm2 : bond.maturity_date.m ≤ 12)
    (hd : Date.le bond.maturity_date d) :
    calculate_bond_value bond d = bond.face_value * bond.purchase_quantity
    ∧ calculate_accrued_interest_per_100 bond
        (couponLatticeDate bond.maturity_date
          (get_months_per_period bond.payment_frequency) k) = 0 :=
  ⟨bond_value_at_or_after_maturity bond d hp hd,
    accrued_interest_zero_on_lattice bond hm1 hm2 k⟩

/-- Witness for C5 at a concrete semiannual bond: value at maturity is the
redemption 1000, and accrued interest is 0 on the coupon date one period
before maturity (2029-12-30). -/
theorem C5_witness :
    calculate_bond_value
        ⟨0, 100, 5, ⟨2030, 6, 30⟩, 2, 99, 10, ⟨2024, 1, 10⟩, none⟩
        ⟨2030, 6, 30⟩ = 1000
    ∧ calculate_accrued_interest_per_100
        ⟨0, 100, 5, ⟨2030, 6, 30⟩, 2, 99, 10, ⟨2024, 1, 10⟩, none⟩
        (couponLatticeDate ⟨2030, 6, 30⟩ (get_months_per_period 2) 1) = 0 := by
  have h := C5_bond_redemption_and_accrual_reset
    ⟨0, 100, 5, ⟨2030, 6, 30⟩, 2, 99, 10, ⟨2024, 1, 10⟩, none⟩
    ⟨2030, 6, 30⟩ 1 (by decide) (by decide) (by decide) (by decide)
  exact ⟨h.1.trans (by norm_num), h.2⟩

/-- Modelled from the claim's wording for C6: a 30/360 day count that clamps
the day-of-month to at most 30 on BOTH ends (the end day unconditionally),
to be compared with the source's `days_30_360`. -/
def days_30_360_claimed (start finish : Date) : Int :=
  let d1 := min start.d 30
  let d2 := min finish.d 30
  360 * (finish.y - start.y) + 30 * (finish.m - start.m) + (d2 - d1)

/-- C6 counterexample: from 2020-01-15 to 2020-01-31 the source counts 16
days (the end day 31 is NOT clamped because the start's clamped day is
below 30), while the claim's both-ends-clamped formula gives 15. -/
theorem C6_counterexample :
    days_30_360 ⟨2020, 1, 15⟩ ⟨2020, 1, 31⟩ = 16
    ∧ days_30_360_claimed ⟨2020, 1, 15⟩ ⟨2020, 1, 31⟩ = 15
    ∧ days_30_360 ⟨2020, 1, 15⟩ ⟨2020, 1, 31⟩
      ≠ days_30_360_claimed ⟨2020, 1, 15⟩ ⟨2020, 1, 31⟩ := by
  refine ⟨by decide, by decide, by decide⟩

/-- Modelled from the claim amended for C6: the start day is clamped to at
most 30; the end day is clamped to at most 30 only when the start's clamped
day equals 30, and otherwise is used as-is. -/
def days_30_360_amended (start finish : Date) : Int :=
  let d1 := min start.d 30
  let d2 := if d1 = 30 then min finish.d 30 else finish.d
  360 * (finish.y - start.y) + 30 * (finish.m - start.m) + (d2 - d1)

/-- C6 (amended): for every pair of dates the source's `days_30_360` equals
`360·Δyear + 30·Δmonth + (d2 − d1)` where `d1` clamps the start day to ≤ 30
and `d2` clamps the end day to ≤ 30 exactly when the start's clamped day is
30 (otherwise the end day is taken unmodified). -/
theorem C6_days_30_360_amended_eq (start finish : Date) :
    days_30_360 start finish = days_30_360_amended start finish := by
  simp only [days_30_360, days_30_360_amended]
  split_ifs <;> omega

/-! ## Transactions, stale tickers, liquidation events -/

/-- Transaction side (`side` column, compared case-insensitively by the
source; the enum abstracts the upper-cased string). -/
inductive Side
  | buy
  | sell
  | deposit
  | withdraw
deriving DecidableEq

/-- One transaction row. `fee = none` models a NaN/absent fee,
which the source treats as 0. -/
structure Txn where
  dt : DateTime
  symbol : String
  side : Side
  quantity : ℚ
  price : ℚ
  fee : Option ℚ
deriving DecidableEq

/-- `StaleTickerAction`. -/
inductive StaleTickerAction
  | liquidate
  | freeze
  | remove
deriving DecidableEq

/-- `LiquidationEvent`. -/
structure LiquidationEvent where
  date : Date
  symbol : String
  price : ℚ
  quantity : ℚ
  cash_amount : ℚ
deriving DecidableEq

/-- Effective fee of a transaction (`0.0` when NaN). -/
def feeOf (t : Txn) : ℚ :=
  match t.fee with
  | some f => f
  | none => 0

/-- Ordering of indexed transactions by datetime, used for the engine's
stable `sort_values('datetime')`. -/
def txnLe (a b : Nat × Txn) : Prop := DateTime.le a.2.dt b.2.dt

instance decTxnLe : DecidableRel txnLe := fun a b =>
  decDateTimeLe a.2.dt b.2.dt

instance : IsTotal (Nat × Txn) txnLe :=
  ⟨fun a b => IsTotal.total (r := DateTime.le) a.2.dt b.2.dt⟩

instance : IsTrans (Nat × Txn) txnLe :=
  ⟨fun _ _ _ hab hbc => IsTrans.trans (r := DateTime.le) _ _ _ hab hbc⟩

/-- Tag each transaction with its original row label (pandas RangeIndex)
and stable-sort by datetime, as `__init__` does. -/
def sortTxns (txns : List Txn) : List (Nat × Txn) :=
  List.insertionSort txnLe txns.enum

/-- `Series.unique()`: distinct values keeping the first occurrence
(filtering the later duplicates of the head after the recursive call
yields the same list as filtering them before it and keeps the
recursion structural). -/
def firstUnique : List String → List String
  | [] => []
  | s :: rest => s :: (firstUnique rest).filter (fun x => decide (x ≠ s))

/-- Dict read with default 0 (`current_holdings.get(sym, 0.0)`). -/
def getQty (holdings : List (String × ℚ)) (sym : String) : ℚ :=
  match holdings.find? (fun p => decide (p.1 = sym)) with
  | some p => p.2
  | none => 0

/-- Dict write (`current_holdings[sym] = q`), keeping insertion order. -/
def setQty : List (String × ℚ) → String → ℚ → List (String × ℚ)
  | [], sym, q => [(sym, q)]
  | (s, q0) :: rest, sym, q =>
      if s = sym then (s, q) :: rest else (s, q0) :: setQty rest sym q

/-! ## Price data -/

/-- The Close column of one symbol's price history, rows in ascending date
order. -/
abbrev PriceHistory := List (Date × ℚ)

/-- The reading `price_df.at[dt, sym]` of the engine's price pipeline
(union-index frame, dropped before `start_date`, `ffill`, then
`reindex(all_dates, method='ffill')`): the close of the symbol's latest
row with `start_date ≤ row date ≤ dt`, `none` when the cell is NaN. -/
def lastCloseInRange (hist : PriceHistory) (start_date dt : Date) : Option ℚ :=
  hist.foldl
    (fun acc row =>
      if Date.le start_date row.1 ∧ Date.le row.1 dt then some row.2 else acc)
    none

/-- Result of the price-fetching loop of the transaction branch:
`price_data`, `stale_last_dates`, `stale_last_prices`, `failed_tickers`
appended in symbol order. -/
structure PriceData where
  data : List (String × PriceHistory)
  staleLastDates : List (String × Date)
  staleLastPrices : List (String × ℚ)
  failed : List String
deriving DecidableEq

/-- The `for sym in symbols` price-fetching loop: skip `'CASH'`; non-empty
histories go to `price_data` (recording the last row for symbols with a
stale-ticker decision); empty histories go to `failed_tickers`. -/
def collect_price_data (symbols : List String)
    (priceHistory : String → PriceHistory)
    (handling : List (String × StaleTickerAction)) : PriceData :=
  symbols.foldl
    (fun acc sym =>
      if sym = "CASH" then acc
      else
        let df := priceHistory sym
        match df.getLast? with
        | some lastRow =>
            let acc1 :=
              if (handling.find? (fun h => decide (h.1 = sym))).isSome then
                { acc with
                    staleLastDates := acc.staleLastDates ++ [(sym, lastRow.1)]
                    staleLastPrices := acc.staleLastPrices ++ [(sym, lastRow.2)] }
              else acc
            { acc1 with data := acc1.data ++ [(sym, df)] }
        | none => { acc with failed := acc.failed ++ [sym] })
    ⟨[], [], [], []⟩

/-! ## Initial cash inference and the suggested-deposit heuristic -/

/-- Python3 `round` to an integer: round-half-to-even. -/
def roundHalfToEven (x : ℚ) : Int :=
  let f := ⌊x⌋
  let r := x - (f : ℚ)
  if r < 1 / 2 then f
  else if 1 / 2 < r then f + 1
  else if f % 2 = 0 then f else f + 1

/-- The power of ten `10^ndigits` as a rational (spelled with natural-number
powers so that it evaluates by kernel reduction). -/
def pow10 (ndigits : Int) : ℚ :=
  if 0 ≤ ndigits then ((10 ^ ndigits.toNat : ℕ) : ℚ)
  else 1 / ((10 ^ (-ndigits).toNat : ℕ) : ℚ)

/-- Python3 `round(x, ndigits)` on exact values. -/
def pyRound (x : ℚ) (ndigits : Int) : ℚ :=
  let scale : ℚ := pow10 ndigits
  ((roundHalfToEven (x * scale) : Int) : ℚ) / scale

/-- The running-balance loop of `_calculate_suggested_deposit`: thread
`(temp_cash, min_cash)` through the sorted transactions. -/
def suggestedDepositLoop :
    List (Nat × Txn) → ℚ × ℚ → ℚ × ℚ
  | [], acc => acc
  | (_, t) :: rest, (temp, mn) =>
      let temp2 :=
        match t.side with
        | Side.buy => temp - (t.quantity * t.price + feeOf t)
        | Side.sell => temp + (t.quantity * t.price - feeOf t)
        | Side.deposit => temp + t.quantity
        | Side.withdraw => temp - t.quantity
      suggestedDepositLoop rest (temp2, min mn temp2)

/-- `PortfolioEngine._calculate_suggested_deposit`. -/
def calculate_suggested_deposit (txns_sorted : List (Nat × Txn)) : ℚ :=
  let res := suggestedDepositLoop txns_sorted (0, 0)
  let suggested := if res.2 < 0 then |res.2| else 0
  if 100 < suggested then pyRound suggested (-2) else pyRound suggested 2

/-- Outcome of the initial-cash inference (lines 274-303 of `engine.py`). -/
structure InitCash where
  initial_cash : ℚ
  initial_deposit_indices : List Nat
  suggested : ℚ
  has_initial_deposit : Bool
deriving DecidableEq

/-- Initial-cash inference: if deposits exist at or before (floored to the
minute) the first trade, sum them and mark their row labels; with deposits
but no trades, all deposits count; otherwise fall back to the suggested
deposit, which also becomes the assumed initial cash. -/
def infer_initial_cash (txns_sorted : List (Nat × Txn)) : InitCash :=
  let deposit_txns :=
    txns_sorted.filter (fun p => decide (p.2.side = Side.deposit))
  if deposit_txns.isEmpty then
    let s := calculate_suggested_deposit txns_sorted
    ⟨s, [], s, false⟩
  else
    let trade_txns := txns_sorted.filter
      (fun p => decide (p.2.side = Side.buy ∨ p.2.side = Side.sell))
    match trade_txns.head? with
    | some first_trade =>
        let ftf := first_trade.2.dt.floorMin
        let early := deposit_txns.filter
          (fun p => decide (DateTime.le p.2.dt.floorMin ftf))
        if early.isEmpty then
          let s := calculate_suggested_deposit txns_sorted
          ⟨s, [], s, false⟩
        else
          ⟨(early.map (fun p => p.2.quantity)).sum, early.map Prod.fst, 0, true⟩
    | none =>
        ⟨(deposit_txns.map (fun p => p.2.quantity)).sum,
          deposit_txns.map Prod.fst, 0, true⟩

/-! ## The day-by-day replay -/

/-- Per-engine context of the replay loop (everything that is fixed while
the `for dt in all_dates` loop runs). -/
structure ReplayCtx where
  txns_sorted : List (Nat × Txn)
  removed : List String
  skipIdx : List Nat
  handling : List (String × StaleTickerAction)
  staleLastDates : List (String × Date)
  staleLastPrices : List (String × ℚ)
  priceData : List (String × PriceHistory)
  bonds : List BondPosition
  start_date : Date

/-- Mutable state of the replay loop. -/
structure ReplayState where
  holdings : List (String × ℚ)
  cash : ℚ
  cumulativeCoupon : ℚ
  cumulativeMaturityCash : ℚ
  purchasedBonds : List Int
  maturedBonds : List Int
  liquidatedSymbols : List String
  events : List LiquidationEvent
deriving DecidableEq

/-- Apply one transaction of the current day (the body of the
`for idx, txn in day_txns.iterrows()` loop). -/
def applyTxn (removed : List String) (skipIdx : List Nat)
    (st : ReplayState) (p : Nat × Txn) : ReplayState :=
  let t := p.2
  if t.symbol ∈ removed then st
  else
    match t.side with
    | Side.buy =>
        { st with
            holdings := setQty st.holdings t.symbol
              (getQty st.holdings t.symbol + t.quantity)
            cash := st.cash - (t.quantity * t.price + feeOf t) }
    | Side.sell =>
        { st with
            holdings := setQty st.holdings t.symbol
              (getQty st.holdings t.symbol - t.quantity)
            cash := st.cash + (t.quantity * t.price - feeOf t) }
    | Side.deposit =>
        if p.1 ∈ skipIdx then st else { st with cash := st.cash + t.quantity }
    | Side.withdraw => { st with cash := st.cash - t.quantity }

/-- One entry of the `for sym, action in self.stale_ticker_handling.items()`
liquidation loop: on the first calendar day strictly after the symbol's
last valid price date, if the held quantity is positive, convert it to
cash at the last known price, record a `LiquidationEvent`, zero the
holding and mark the symbol liquidated. -/
def applyLiquidation (staleLastDates : List (String × Date))
    (staleLastPrices : List (String × ℚ)) (removed : List String) (dt : Date)
    (st : ReplayState) (h : String × StaleTickerAction) : ReplayState :=
  if h.1 ∈ st.liquidatedSymbols ∨ h.1 ∈ removed then st
  else if h.2 = StaleTickerAction.liquidate then
    match staleLastDates.find? (fun p => decide (p.1 = h.1)) with
    | some ld =>
        if Date.lt ld.2 dt then
          let qty := getQty st.holdings h.1
          if 0 < qty then
            let last_price :=
              match staleLastPrices.find? (fun p => decide (p.1 = h.1)) with
              | some p => p.2
              | none => 0
            let cash_amount := last_price * qty
            { st with
                cash := st.cash + cash_amount
                events := st.events ++ [⟨ld.2, h.1, last_price, qty, cash_amount⟩]
                holdings := setQty st.holdings h.1 0
                liquidatedSymbols := st.liquidatedSymbols ++ [h.1] }
          else st
        else st
    | none => st
  else st

/-- Bond cash flows of one day for one bond: one-time purchase cost,
coupons falling due exactly today, and the one-time maturity redemption. -/
def applyBondCash (d : Date) (st : ReplayState) (bond : BondPosition) :
    ReplayState :=
  if Date.lt d bond.purchase_date then st
  else
    let st1 :=
      if bond.id ∈ st.purchasedBonds then st
      else
        { st with
            cash := st.cash - calculate_bond_cost_basis bond
            purchasedBonds := st.purchasedBonds ++ [bond.id] }
    let st2 := (generate_coupon_payments bond d d).foldl
      (fun s c =>
        { s with
            cash := s.cash + c.2
            cumulativeCoupon := s.cumulativeCoupon + c.2 })
      st1
    if Date.le bond.maturity_date d ∧ bond.id ∉ st2.maturedBonds then
      { st2 with
          cash := st2.cash + bond.face_value * bond.purchase_quantity
          cumulativeMaturityCash :=
            st2.cumulativeMaturityCash + bond.face_value * bond.purchase_quantity
          maturedBonds := st2.maturedBonds ++ [bond.id] }
    else st2

/-- Contribution of one holding to the daily NAV (the body of the
`for sym, qty in current_holdings.items()` valuation loop): 0 when the
quantity is 0 or the symbol has no price column; the frozen last price for
a FREEZE symbol past its last valid date; otherwise the forward-filled
close, or 0 when that cell is NaN. -/
def symbolContribution (ctx : ReplayCtx) (dt : Date) (sym : String) (qty : ℚ) :
    ℚ :=
  match ctx.priceData.find? (fun p => decide (p.1 = sym)) with
  | none => 0
  | some entry =>
      if qty = 0 then 0
      else
        let frozenPrice : Option ℚ :=
          if (ctx.handling.find? (fun p => decide (p.1 = sym))).map Prod.snd
              = some StaleTickerAction.freeze then
            match ctx.staleLastDates.find? (fun p => decide (p.1 = sym)) with
            | some ld =>
                if Date.lt ld.2 dt then
                  some (match ctx.staleLastPrices.find?
                      (fun p => decide (p.1 = sym)) with
                    | some p => p.2
                    | none => 0)
                else none
            | none => none
          else none
        match frozenPrice with
        | some fp => qty * fp
        | none =>
            match lastCloseInRange entry.2 ctx.start_date dt with
            | some p => qty * p
            | none => 0

/-- The `daily_value` computed at the end of each replayed day: cash plus
stock contributions plus live (purchased, unmatured) bond values. -/
def dailyValue (ctx : ReplayCtx) (dt : Date) (st : ReplayState) : ℚ :=
  st.cash
    + (st.holdings.map (fun p => symbolContribution ctx dt p.1 p.2)).sum
    + (ctx.bonds.map (fun b =>
        if Date.lt dt b.purchase_date ∨ b.id ∈ st.maturedBonds then 0
        else calculate_bond_value b dt)).sum

/-- What the engine records for one replayed day. -/
structure ReplayDay where
  date : Date
  nav : ℚ
  cash : ℚ
  coupon : ℚ
  maturityCash : ℚ
  holdings : List (String × ℚ)
deriving DecidableEq

/-- One iteration of `for dt in all_dates`: apply the day's transactions,
then stale-ticker liquidations, then bond cash flows, then value the
portfolio and record the parallel series entries. -/
def replayDay (ctx : ReplayCtx) (st : ReplayState) (dt : Date) :
    ReplayState × ReplayDay :=
  let dayTx := ctx.txns_sorted.filter (fun p => decide (p.2.dt.date = dt))
  let st1 := dayTx.foldl (applyTxn ctx.removed ctx.skipIdx) st
  let st2 := ctx.handling.foldl
    (applyLiquidation ctx.staleLastDates ctx.staleLastPrices ctx.removed dt) st1
  let st3 := ctx.bonds.foldl (applyBondCash dt) st2
  let nav := dailyValue ctx dt st3
  (st3, ⟨dt, nav, st3.cash, st3.cumulativeCoupon, st3.cumulativeMaturityCash,
    st3.holdings⟩)

/-- The whole replay loop, returning the final state and the per-day
records in calendar order. -/
def replayAll (ctx : ReplayCtx) :
    ReplayState → List Date → ReplayState × List ReplayDay
  | st, [] => (st, [])
  | st, dt :: rest =>
      let step := replayDay ctx st dt
      let restRun := replayAll ctx step.1 rest
      (restRun.1, step.2 :: restRun.2)

/-! ## `_calculate_nav_history_impl`, transaction branch -/

/-- Everything `_calculate_nav_history_impl` produces or mutates on the
engine in transaction mode: the four parallel series, the suggested /
assumed initial cash and the skipped deposit rows, the liquidation events
and failed tickers (both appended to their pre-call contents), plus the
per-day records the series are projected from. -/
structure NavResult where
  navHistory : List (Date × ℚ)
  cashHistory : List (Date × ℚ)
  couponHistory : List (Date × ℚ)
  maturityCashHistory : List (Date × ℚ)
  suggestedInitialDeposit : ℚ
  initialCashUsed : ℚ
  initialDepositIndices : List Nat
  liquidationEvents : List LiquidationEvent
  failedTickers : List String
  days : List ReplayDay
deriving DecidableEq

/-- `min` of a list of dates with a starting candidate. -/
def minDateFold (l : List Date) (d0 : Date) : Date :=
  l.foldl (fun acc x => if Date.le x acc then x else acc) d0

/-- `txns['datetime'].min().date()`. -/
def firstTxnDate (txns : List Txn) : Option Date :=
  match txns with
  | [] => none
  | t :: rest =>
      some ((rest.foldl
        (fun acc x => if DateTime.le x.dt acc then x.dt else acc) t.dt).date)

/-- An empty-series result (the early `return pd.Series()` paths; the
engine attributes set before the return are preserved). -/
def emptyNavResult (suggested initialCash : ℚ) (skips : List Nat)
    (events : List LiquidationEvent) (failed : List String) : NavResult :=
  ⟨[], [], [], [], suggested, initialCash, skips, events, failed, []⟩

/-- `removed_symbols`: the symbols whose stale-ticker action is REMOVE. -/
def removedSymbols (handling : List (String × StaleTickerAction)) :
    List String :=
  (handling.filter (fun h => decide (h.2 = StaleTickerAction.remove))).map
    Prod.fst

/-- `symbols = [s for s in txns['symbol'].unique() if s not in removed]`. -/
def engineSymbols (txns : List Txn)
    (handling : List (String × StaleTickerAction)) : List String :=
  if txns.isEmpty then []
  else (firstUnique ((sortTxns txns).map (fun p => p.2.symbol))).filter
    (fun s => decide (¬ s ∈ removedSymbols handling))

/-- The initial-cash inference as wired into the impl (run only when there
are transactions; otherwise everything stays at its `__init__` value). -/
def engineInitCash (txns : List Txn) : InitCash :=
  if txns.isEmpty then ⟨0, [], 0, false⟩
  else infer_initial_cash (sortTxns txns)

/-- `start_date`: earliest transaction date, pulled back to the earliest
bond purchase date when bonds exist (today when neither exists). -/
def engineStartDate (txns : List Txn) (bonds : List BondPosition)
    (today : Date) : Date :=
  let start0 :=
    match firstTxnDate txns with
    | some d => d
    | none => today
  match bonds with
  | [] => start0
  | b :: rest =>
      let bond_start := minDateFold (rest.map (fun x => x.purchase_date))
        b.purchase_date
      if txns.isEmpty then bond_start
      else if Date.le bond_start start0 then bond_start
      else start0

/-- The price-fetching loop applied to the engine's symbol list. -/
def enginePriceData (txns : List Txn) (priceHistory : String → PriceHistory)
    (handling : List (String × StaleTickerAction)) : PriceData :=
  collect_price_data (engineSymbols txns handling) priceHistory handling

/-- `all_dates`: the sorted union of price dates (≥ start), transaction
dates and bond event dates, clipped to `[start_date, today]`. -/
def engineAllDates (txns : List Txn) (bonds : List BondPosition)
    (priceHistory : String → PriceHistory)
    (handling : List (String × StaleTickerAction)) (today : Date) :
    List Date :=
  let start_date := engineStartDate txns bonds today
  let pd := enginePriceData txns priceHistory handling
  let base_dates := (pd.data.flatMap (fun p => p.2.map Prod.fst)).filter
    (fun d => decide (Date.le start_date d))
  let txn_dates := (sortTxns txns).map (fun p => p.2.dt.date)
  let bond_dates := bonds.flatMap (fun b =>
    [b.purchase_date]
      ++ (if Date.le b.maturity_date today then [b.maturity_date] else [])
      ++ (generate_coupon_payments b start_date today).map Prod.fst)
  (List.insertionSort Date.le
    ((base_dates ++ txn_dates ++ bond_dates).dedup)).filter
    (fun d => decide (Date.le start_date d ∧ Date.le d today))

/-- The fixed context the replay loop runs in. -/
def engineCtx (txns : List Txn) (bonds : List BondPosition)
    (priceHistory : String → PriceHistory)
    (handling : List (String × StaleTickerAction)) (today : Date) :
    ReplayCtx :=
  ⟨sortTxns txns, removedSymbols handling,
    (engineInitCash txns).initial_deposit_indices, handling,
    (enginePriceData txns priceHistory handling).staleLastDates,
    (enginePriceData txns priceHistory handling).staleLastPrices,
    (enginePriceData txns priceHistory handling).data, bonds,
    engineStartDate txns bonds today⟩

/-- The replay's starting state: all symbols at quantity 0, the inferred
initial cash, and the engine's liquidation-event list at call time. -/
def engineInitState (txns : List Txn)
    (handling : List (String × StaleTickerAction))
    (events0 : List LiquidationEvent) : ReplayState :=
  ⟨(engineSymbols txns handling).map (fun s => (s, 0)),
    (engineInitCash txns).initial_cash, 0, 0, [], [], [], events0⟩

/-- The full replay run over the engine calendar. -/
def engineRun (txns : List Txn) (bonds : List BondPosition)
    (priceHistory : String → PriceHistory)
    (handling : List (String × StaleTickerAction)) (today : Date)
    (events0 : List LiquidationEvent) : ReplayState × List ReplayDay :=
  replayAll (engineCtx txns bonds priceHistory handling today)
    (engineInitState txns handling events0)
    (engineAllDates txns bonds priceHistory handling today)

/-- `PortfolioEngine._calculate_nav_history_impl` for a TRANSACTION
portfolio. `events0`/`failed0` are `self.liquidation_events` /
`self.failed_tickers` at call time (the source appends to them). -/
def calculate_nav_history_impl (txns : List Txn) (bonds : List BondPosition)
    (priceHistory : String → PriceHistory)
    (handling : List (String × StaleTickerAction)) (today : Date)
    (events0 : List LiquidationEvent) (failed0 : List String) : NavResult :=
  if txns.isEmpty ∧ bonds.isEmpty then
    emptyNavResult 0 0 [] events0 failed0
  else
    let ic := engineInitCash txns
    let pd := enginePriceData txns priceHistory handling
    if pd.data.isEmpty ∧ bonds.isEmpty then
      emptyNavResult ic.suggested ic.initial_cash ic.initial_deposit_indices
        events0 (failed0 ++ pd.failed)
    else
      let all_dates := engineAllDates txns bonds priceHistory handling today
      if all_dates.isEmpty then
        emptyNavResult ic.suggested ic.initial_cash ic.initial_deposit_indices
          events0 (failed0 ++ pd.failed)
      else
        let run := engineRun txns bonds priceHistory handling today events0
        ⟨run.2.map (fun r => (r.date, r.nav)),
          run.2.map (fun r => (r.date, r.cash)),
          run.2.map (fun r => (r.date, r.coupon)),
          run.2.map (fun r => (r.date, r.maturityCash)),
          ic.suggested, ic.initial_cash, ic.initial_deposit_indices,
          run.1.events, failed0 ++ pd.failed, run.2⟩

/-! ## Basic indicators (`aggregator.calculate_basic_portfolio_indicators`) -/

/-- Read a series at a date. -/
def seriesAt (s : List (Date × ℚ)) (d : Date) : Option ℚ :=
  (s.find? (fun p => decide (p.1 = d))).map Prod.snd

/-- The `'total_return'` entry of `calculate_basic_portfolio_indicators`:
`(nav.iloc[-1] / nav.iloc[0]) - 1`, and 0.0 for an empty NAV series. -/
def basic_total_return (nav : List (Date × ℚ)) : ℚ :=
  match nav.head?, nav.getLast? with
  | some first, some last => last.2 / first.2 - 1
  | _, _ => 0

/-! ## C1: the spec's worked example scenario -/

/-- AAPL price history of the example: flat at 100, then 150 from
2020-06-01 onward (daily rows thinned to the dates that matter; the
engine forward-fills between rows). -/
def aaplHistC1 : PriceHistory :=
  [(⟨2020, 1, 1⟩, 100), (⟨2020, 1, 2⟩, 100), (⟨2020, 6, 1⟩, 150),
    (⟨2020, 6, 2⟩, 150), (⟨2020, 12, 31⟩, 150)]

/-- The example transactions: DEPOSIT 10000 on 2020-01-01, BUY 10 AAPL at
100 fee 1 on 2020-01-02, SELL 10 AAPL at 150 fee 1 on 2020-06-01. -/
def txnsC1 : List Txn :=
  [⟨⟨⟨2020, 1, 1⟩, 0⟩, "CASH", Side.deposit, 10000, 0, some 0⟩,
    ⟨⟨⟨2020, 1, 2⟩, 0⟩, "AAPL", Side.buy, 10, 100, some 1⟩,
    ⟨⟨⟨2020, 6, 1⟩, 0⟩, "AAPL", Side.sell, 10, 150, some 1⟩]

/-- Price provider of the example: only AAPL has data. -/
def priceFnC1 : String → PriceHistory :=
  fun s => if s = "AAPL" then aaplHistC1 else []

/-- The example's NAV run (no bonds, no stale handling, today
2020-12-31). -/
def resultC1 : NavResult :=
  calculate_nav_history_impl txnsC1 [] priceFnC1 [] ⟨2020, 12, 31⟩ [] []

set_option maxRecDepth 400000 in
/-- C1 counterexample: in the spec's example scenario the engine's NAV on
2020-01-02 is 9999 (cash 10000 − 1001 plus 10 shares at 100), not the
claimed 8999: the claim's arithmetic `10000-1001+1000` equals 9999 but the
claim (and the spec) writes 8999, forgetting the repurchased equity value. -/
theorem C1_counterexample :
    seriesAt resultC1.navHistory ⟨2020, 1, 2⟩ = some 9999
    ∧ seriesAt resultC1.navHistory ⟨2020, 1, 2⟩ ≠ some 8999 :=
  ⟨by with_unfolding_all rfl, of_decide_eq_false (by with_unfolding_all rfl)⟩

set_option maxRecDepth 400000 in
/-- C1 (amended): in the example scenario, NAV(2020-01-02) = 9999
(= 10000 − 1001 + 1000), NAV(2020-06-01) = 10498 (the 8999 cash plus the
post-fee sale proceeds 1499), the AAPL holding is exactly 0 on every
calendar date after 2020-06-01, and `get_basic_indicators()['total_return']`
is exactly 0.0498 (10498/10000 − 1). Everything matches the claim except
the NAV value on the buy date, which the claim mis-stated as 8999. -/
theorem C1_example_scenario_amended :
    seriesAt resultC1.navHistory ⟨2020, 1, 2⟩ = some 9999
    ∧ seriesAt resultC1.navHistory ⟨2020, 6, 1⟩ = some 10498
    ∧ (∀ r ∈ resultC1.days, Date.lt ⟨2020, 6, 1⟩ r.date →
        getQty r.holdings "AAPL" = 0)
    ∧ basic_total_return resultC1.navHistory = 0.0498 :=
  ⟨by with_unfolding_all rfl, by with_unfolding_all rfl,
    of_decide_eq_true (by with_unfolding_all rfl),
    by with_unfolding_all rfl⟩

/-! ## C3: initial-cash inference and the suggested-deposit heuristic -/

/-- Cash effect of one transaction on a running balance (the per-side
arithmetic shared by `_calculate_suggested_deposit` and the replay loop). -/
def txnCashEffect (t : Txn) : ℚ :=
  match t.side with
  | Side.buy => -(t.quantity * t.price + feeOf t)
  | Side.sell => t.quantity * t.price - feeOf t
  | Side.deposit => t.quantity
  | Side.withdraw => -t.quantity

/-- The successive balances of a running cash replay started at `c`. -/
def cashPrefix : List (Nat × Txn) → ℚ → List ℚ
  | [], _ => []
  | p :: rest, c =>
      (c + txnCashEffect p.2) :: cashPrefix rest (c + txnCashEffect p.2)

/-- Modelled from the claim's wording for C3: the running minimum of a
zero-initial-cash replay of the sorted transactions (0 when the balance
never goes negative). -/
def minRunningCash (ts : List (Nat × Txn)) : ℚ :=
  (cashPrefix ts 0).foldl min 0

/-- Modelled from the claim's wording for C3: the DEPOSIT rows at or
before (floored to the minute) the first BUY/SELL; all DEPOSIT rows when
there is no BUY/SELL at all. -/
def earlyDepositRows (ts : List (Nat × Txn)) : List (Nat × Txn) :=
  let deposits := ts.filter (fun p => decide (p.2.side = Side.deposit))
  match (ts.filter (fun p =>
      decide (p.2.side = Side.buy ∨ p.2.side = Side.sell))).head? with
  | some ft => deposits.filter
      (fun p => decide (DateTime.le p.2.dt.floorMin ft.2.dt.floorMin))
  | none => deposits

theorem suggestedDepositLoop_eq (l : List (Nat × Txn)) (c m : ℚ) :
    suggestedDepositLoop l (c, m)
      = (c + (l.map (fun p => txnCashEffect p.2)).sum,
          (cashPrefix l c).foldl min m) := by
  induction l generalizing c m with
  | nil => simp [suggestedDepositLoop, cashPrefix]
  | cons p rest ih =>
      obtain ⟨i, t⟩ := p
      cases ht : t.side
      case buy =>
        simp only [suggestedDepositLoop, cashPrefix, txnCashEffect, ht, ih,
          List.map_cons, List.sum_cons, List.foldl_cons]
        have h2 : c - (t.quantity * t.price + feeOf t)
            = c + -(t.quantity * t.price + feeOf t) := by ring
        rw [h2, add_assoc]
      case sell =>
        simp only [suggestedDepositLoop, cashPrefix, txnCashEffect, ht, ih,
          List.map_cons, List.sum_cons, List.foldl_cons]
        rw [add_assoc]
      case deposit =>
        simp only [suggestedDepositLoop, cashPrefix, txnCashEffect, ht, ih,
          List.map_cons, List.sum_cons, List.foldl_cons]
        rw [add_assoc]
      case withdraw =>
        simp only [suggestedDepositLoop, cashPrefix, txnCashEffect, ht, ih,
          List.map_cons, List.sum_cons, List.foldl_cons]
        have h2 : c - t.quantity = c + -t.quantity := by ring
        rw [h2, add_assoc]

theorem foldl_min_le_init (l : List ℚ) (a : ℚ) : l.foldl min a ≤ a := by
  induction l generalizing a with
  | nil => simp
  | cons x xs ih => exact le_trans (ih (min a x)) (min_le_left a x)

/-- `_calculate_suggested_deposit` computes exactly the claim's formula:
the absolute value of the running minimum of a zero-initial-cash replay,
rounded to the nearest 100 when above 100 and to 2 decimals otherwise. -/
theorem calculate_suggested_deposit_eq (ts : List (Nat × Txn)) :
    calculate_suggested_deposit ts
      = if 100 < |minRunningCash ts| then pyRound |minRunningCash ts| (-2)
        else pyRound |minRunningCash ts| 2 := by
  unfold calculate_suggested_deposit minRunningCash
  rw [suggestedDepositLoop_eq]
  have hle : (cashPrefix ts 0).foldl min 0 ≤ 0 := foldl_min_le_init _ _
  by_cases h : (cashPrefix ts 0).foldl min 0 < 0
  · simp [h]
  · have h0 : (cashPrefix ts 0).foldl min 0 = 0 := le_antisymm hle (not_lt.mp h)
    simp [h, h0]

/-- The initial-cash inference matches its claim-level description: with no
early deposit the suggested deposit is computed and becomes the initial
cash; with early deposits the suggestion stays 0, the initial cash is
their sum and their row labels are marked for skipping. -/
theorem infer_initial_cash_spec (ts : List (Nat × Txn)) :
    (earlyDepositRows ts = [] →
        infer_initial_cash ts
          = ⟨calculate_suggested_deposit ts, [],
              calculate_suggested_deposit ts, false⟩)
    ∧ (earlyDepositRows ts ≠ [] →
        infer_initial_cash ts
          = ⟨((earlyDepositRows ts).map (fun p => p.2.quantity)).sum,
              (earlyDepositRows ts).map Prod.fst, 0, true⟩) := by
  simp only [infer_initial_cash, earlyDepositRows]
  by_cases hdep : (ts.filter (fun p => decide (p.2.side = Side.deposit))).isEmpty
  · have hnil : ts.filter (fun p => decide (p.2.side = Side.deposit)) = [] := by
      simpa [List.isEmpty_iff] using hdep
    cases htr : (ts.filter (fun p =>
        decide (p.2.side = Side.buy ∨ p.2.side = Side.sell))).head? <;>
      simp [hdep, hnil, htr]
  · cases htr : (ts.filter (fun p =>
        decide (p.2.side = Side.buy ∨ p.2.side = Side.sell))).head? with
    | none =>
        have hne : ts.filter (fun p => decide (p.2.side = Side.deposit)) ≠ [] := by
          simpa [List.isEmpty_iff] using hdep
        simp [hdep, htr, hne]
    | some ft =>
        by_cases hearly : ((ts.filter (fun p =>
            decide (p.2.side = Side.deposit))).filter
            (fun p => decide (DateTime.le p.2.dt.floorMin ft.2.dt.floorMin))).isEmpty
        · have h0 : (ts.filter (fun p =>
              decide (p.2.side = Side.deposit))).filter
              (fun p => decide (DateTime.le p.2.dt.floorMin ft.2.dt.floorMin)) = [] := by
            simpa [List.isEmpty_iff] using hearly
          simp [hdep, htr, hearly, h0]
        · have h0 : (ts.filter (fun p =>
              decide (p.2.side = Side.deposit))).filter
              (fun p => decide (DateTime.le p.2.dt.floorMin ft.2.dt.floorMin)) ≠ [] := by
            simpa [List.isEmpty_iff] using hearly
          simp [hdep, htr, hearly, h0]

/-- The impl surfaces the inferred initial-cash data unchanged on every
branch (the fields are set before any early return can happen). -/
theorem impl_init_fields (txns : List Txn) (bonds : List BondPosition)
    (priceHistory : String → PriceHistory)
    (handling : List (String × StaleTickerAction)) (today : Date)
    (events0 : List LiquidationEvent) (failed0 : List String)
    (htx : txns ≠ []) :
    (calculate_nav_history_impl txns bonds priceHistory handling today events0
        failed0).suggestedInitialDeposit = (engineInitCash txns).suggested
    ∧ (calculate_nav_history_impl txns bonds priceHistory handling today
        events0 failed0).initialCashUsed = (engineInitCash txns).initial_cash
    ∧ (calculate_nav_history_impl txns bonds priceHistory handling today
          events0 failed0).initialDepositIndices
        = (engineInitCash txns).initial_deposit_indices := by
  have h1 : txns.isEmpty = false := by
    cases txns with
    | nil => exact absurd rfl htx
    | cons a l => rfl
  unfold calculate_nav_history_impl
  simp only [h1, Bool.false_eq_true, false_and, if_false]
  split_ifs <;> simp [emptyNavResult]

/-- C3: in TRANSACTION mode, when no DEPOSIT occurs at or before (floored
to the minute) the first BUY/SELL, the engine's `suggested_initial_deposit`
is the absolute value of the running minimum of a zero-initial-cash replay,
rounded to the nearest 100 when above 100 and to 2 decimal places
otherwise, and that amount is used as the initial cash of the NAV replay;
when early deposits do exist, `suggested_initial_deposit` stays 0, the
initial cash is their sum and exactly their rows are marked skipped. -/
theorem C3_suggested_deposit_inference (txns : List Txn)
    (bonds : List BondPosition) (priceHistory : String → PriceHistory)
    (handling : List (String × StaleTickerAction)) (today : Date)
    (events0 : List LiquidationEvent) (failed0 : List String)
    (htx : txns ≠ []) :
    (earlyDepositRows (sortTxns txns) = [] →
        (calculate_nav_history_impl txns bonds priceHistory handling today
            events0 failed0).suggestedInitialDeposit
          = (if 100 < |minRunningCash (sortTxns txns)| then
              pyRound |minRunningCash (sortTxns txns)| (-2)
            else pyRound |minRunningCash (sortTxns txns)| 2)
        ∧ (calculate_nav_history_impl txns bonds priceHistory handling today
              events0 failed0).initialCashUsed
            = (calculate_nav_history_impl txns bonds priceHistory handling
                today events0 failed0).suggestedInitialDeposit)
    ∧ (earlyDepositRows (sortTxns txns) ≠ [] →
        (calculate_nav_history_impl txns bonds priceHistory handling today
            events0 failed0).suggestedInitialDeposit = 0
        ∧ (calculate_nav_history_impl txns bonds priceHistory handling today
              events0 failed0).initialCashUsed
            = ((earlyDepositRows (sortTxns txns)).map
                (fun p => p.2.quantity)).sum
        ∧ (calculate_nav_history_impl txns bonds priceHistory handling today
              events0 failed0).initialDepositIndices
            = (earlyDepositRows (sortTxns txns)).map Prod.fst) := by
  obtain ⟨hs, hc, hi⟩ := impl_init_fields txns bonds priceHistory handling
    today events0 failed0 htx
  have h1 : txns.isEmpty = false := by
    cases txns with
    | nil => exact absurd rfl htx
    | cons a l => rfl
  have hic : engineInitCash txns = infer_initial_cash (sortTxns txns) := by
    unfold engineInitCash
    simp [h1]
  obtain ⟨b1, b2⟩ := infer_initial_cash_spec (sortTxns txns)
  constructor
  · intro he
    constructor
    · rw [hs, hic, b1 he]
      exact calculate_suggested_deposit_eq _
    · rw [hc, hs, hic, b1 he]
  · intro he
    refine ⟨?_, ?_, ?_⟩
    · rw [hs, hic, b2 he]
    · rw [hc, hic, b2 he]
    · rw [hi, hic, b2 he]

/-- Witness for C3: a single BUY of 1 share at 150.5 with no deposit; the
running minimum is −150.5, above 100 in absolute value, so the suggestion
is rounded to the nearest hundred, 200, and used as initial cash. -/
theorem C3_witness :
    earlyDepositRows (sortTxns [⟨⟨⟨2020, 1, 2⟩, 0⟩, "X", Side.buy, 1, 150.5,
        none⟩]) = []
    ∧ (calculate_nav_history_impl
        [⟨⟨⟨2020, 1, 2⟩, 0⟩, "X", Side.buy, 1, 150.5, none⟩] []
        (fun _ => []) [] ⟨2020, 1, 3⟩ [] []).suggestedInitialDeposit = 200
    ∧ (calculate_nav_history_impl
        [⟨⟨⟨2020, 1, 2⟩, 0⟩, "X", Side.buy, 1, 150.5, none⟩] []
        (fun _ => []) [] ⟨2020, 1, 3⟩ [] []).initialCashUsed = 200 := by
  have h := C3_suggested_deposit_inference
    [⟨⟨⟨2020, 1, 2⟩, 0⟩, "X", Side.buy, 1, 150.5, none⟩] []
    (fun _ => []) [] ⟨2020, 1, 3⟩ [] [] (by simp)
  have he : earlyDepositRows (sortTxns
      [⟨⟨⟨2020, 1, 2⟩, 0⟩, "X", Side.buy, 1, 150.5, none⟩]) = [] := by
    with_unfolding_all rfl
  obtain ⟨hsug, hcash⟩ := h.1 he
  refine ⟨he, ?_, ?_⟩
  · rw [hsug]
    with_unfolding_all rfl
  · rw [hcash, hsug]
    with_unfolding_all rfl

/-! ## C2: cash conservation in TRANSACTION mode -/

/-- The replay loop's cash delta for one transaction row: the per-side
arithmetic, 0 for REMOVE-d symbols, and 0 for the deposits folded into the
initial cash. -/
def txnCashEffectWith (removed : List String) (skipIdx : List Nat)
    (p : Nat × Txn) : ℚ :=
  if p.2.symbol ∈ removed then 0
  else
    match p.2.side with
    | Side.buy => -(p.2.quantity * p.2.price + feeOf p.2)
    | Side.sell => p.2.quantity * p.2.price - feeOf p.2
    | Side.deposit => if p.1 ∈ skipIdx then 0 else p.2.quantity
    | Side.withdraw => -p.2.quantity

theorem applyTxn_cash (removed : List String) (skipIdx : List Nat)
    (st : ReplayState) (p : Nat × Txn) :
    (applyTxn removed skipIdx st p).cash
      = st.cash + txnCashEffectWith removed skipIdx p := by
  unfold applyTxn txnCashEffectWith
  by_cases hr : p.2.symbol ∈ removed
  · simp [hr]
  · cases hs : p.2.side
    · simp [hr, hs]; ring
    · simp [hr, hs]
    · by_cases hk : p.1 ∈ skipIdx <;> simp [hr, hs, hk]
    · simp [hr, hs]; ring

theorem foldl_applyTxn_cash (removed : List String) (skipIdx : List Nat) :
    ∀ (l : List (Nat × Txn)) (st : ReplayState),
      (l.foldl (applyTxn removed skipIdx) st).cash
        = st.cash + (l.map (txnCashEffectWith removed skipIdx)).sum
  | [], st => by simp
  | p :: rest, st => by
      rw [List.foldl_cons, foldl_applyTxn_cash removed skipIdx rest,
        applyTxn_cash]
      simp [add_assoc]

theorem replayDay_cash (ctx : ReplayCtx) (hh : ctx.handling = [])
    (hb : ctx.bonds = []) (st : ReplayState) (dt : Date) :
    (replayDay ctx st dt).1.cash
      = st.cash
        + ((ctx.txns_sorted.filter (fun p => decide (p.2.dt.date = dt))).map
            (txnCashEffectWith ctx.removed ctx.skipIdx)).sum := by
  unfold replayDay
  rw [hh, hb]
  simp only [List.foldl_nil]
  exact foldl_applyTxn_cash _ _ _ _

theorem replayAll_cash (ctx : ReplayCtx) (hh : ctx.handling = [])
    (hb : ctx.bonds = []) :
    ∀ (dates : List Date) (st : ReplayState),
      (replayAll ctx st dates).1.cash
        = st.cash
          + (dates.map (fun d =>
              ((ctx.txns_sorted.filter
                  (fun p => decide (p.2.dt.date = d))).map
                (txnCashEffectWith ctx.removed ctx.skipIdx)).sum)).sum
  | [], st => by simp [replayAll]
  | d :: rest, st => by
      rw [replayAll]
      simp only [List.map_cons, List.sum_cons]
      rw [replayAll_cash ctx hh hb rest, replayDay_cash ctx hh hb]
      ring

theorem getLast?_cons_of_ne {α : Type} (a : α) (l : List α) (h : l ≠ []) :
    (a :: l).getLast? = l.getLast? := by
  cases l with
  | nil => exact absurd rfl h
  | cons b m => rfl

/-- The last recorded day is a snapshot of the final replay state. -/
theorem replayAll_getLast (ctx : ReplayCtx) :
    ∀ (dates : List Date) (st : ReplayState), dates ≠ [] →
      ∃ r, (replayAll ctx st dates).2.getLast? = some r
        ∧ r.cash = (replayAll ctx st dates).1.cash
        ∧ r.holdings = (replayAll ctx st dates).1.holdings
  | [], _, h => absurd rfl h
  | d :: rest, st, _ => by
      cases hrest : rest with
      | nil =>
          subst hrest
          refine ⟨(replayDay ctx st d).2, ?_, ?_, ?_⟩ <;>
            simp [replayAll, replayDay]
      | cons d2 rest2 =>
          subst hrest
          obtain ⟨r, hr1, hr2, hr3⟩ := replayAll_getLast ctx (d2 :: rest2)
            (replayDay ctx st d).1 (by simp)
          have hne : (replayAll ctx (replayDay ctx st d).1 (d2 :: rest2)).2
              ≠ [] := by
            rw [replayAll]
            exact List.cons_ne_nil _ _
          rw [replayAll]
          dsimp only
          refine ⟨r, ?_, hr2, hr3⟩
          rw [getLast?_cons_of_ne _ _ hne, hr1]

theorem sum_map_add_distrib (dates : List Date) (f g : Date → ℚ) :
    (dates.map (fun d => f d + g d)).sum
      = (dates.map f).sum + (dates.map g).sum := by
  induction dates with
  | nil => simp
  | cons d rest ih =>
      simp only [List.map_cons, List.sum_cons, ih]
      ring

theorem sum_indicator_not_mem (dates : List Date) (x : Date) (c : ℚ)
    (hx : x ∉ dates) :
    (dates.map (fun d => if x = d then c else 0)).sum = 0 := by
  induction dates with
  | nil => simp
  | cons d rest ih =>
      have hxd : x ≠ d := fun h => hx (h ▸ List.mem_cons_self d rest)
      have hxr : x ∉ rest := fun h => hx (List.mem_cons_of_mem d h)
      simp [hxd, ih hxr]

theorem sum_indicator_of_nodup (dates : List Date) (x : Date) (c : ℚ)
    (hnd : dates.Nodup) (hx : x ∈ dates) :
    (dates.map (fun d => if x = d then c else 0)).sum = c := by
  induction dates with
  | nil => simp at hx
  | cons d rest ih =>
      rcases List.mem_cons.mp hx with h | h
      · subst h
        have hnotin : x ∉ rest := (List.nodup_cons.mp hnd).1
        simp [sum_indicator_not_mem rest x c hnotin]
      · have hxd : x ≠ d := by
          intro hc
          subst hc
          exact (List.nodup_cons.mp hnd).1 h
        simp [hxd, ih (List.nodup_cons.mp hnd).2 h]

/-- Regrouping: summing per-day transaction effects over a duplicate-free
calendar that contains every transaction's date gives the plain sum over
the transactions. -/
theorem sum_day_groups (dates : List Date) (l : List (Nat × Txn))
    (e : Nat × Txn → ℚ) (hnd : dates.Nodup)
    (hmem : ∀ p ∈ l, p.2.dt.date ∈ dates) :
    (dates.map (fun d =>
        ((l.filter (fun p => decide (p.2.dt.date = d))).map e).sum)).sum
      = (l.map e).sum := by
  induction l with
  | nil => simp
  | cons p rest ih =>
      have hstep : ∀ d ∈ dates,
          (((p :: rest).filter (fun q => decide (q.2.dt.date = d))).map e).sum
            = (if p.2.dt.date = d then e p else 0)
              + ((rest.filter (fun q => decide (q.2.dt.date = d))).map e).sum := by
        intro d _
        by_cases h : p.2.dt.date = d <;> simp [List.filter_cons, h]
      rw [List.map_congr_left hstep, sum_map_add_distrib,
        sum_indicator_of_nodup dates _ _ hnd (hmem p (List.mem_cons_self p rest)),
        ih (fun q hq => hmem q (List.mem_cons_of_mem p hq))]
      simp

theorem mem_enumFrom_snd {α : Type} :
    ∀ (l : List α) (n : Nat) (p : Nat × α), p ∈ l.enumFrom n → p.2 ∈ l
  | [], _, _, h => by simp at h
  | a :: l, n, p, h => by
      rw [List.enumFrom] at h
      rcases List.mem_cons.mp h with h | h
      · subst h
        exact List.mem_cons_self _ _
      · exact List.mem_cons_of_mem _ (mem_enumFrom_snd l (n + 1) p h)

theorem sortTxns_perm (txns : List Txn) : (sortTxns txns).Perm txns.enum :=
  List.perm_insertionSort _ _

theorem mem_sortTxns_snd (txns : List Txn) (p : Nat × Txn)
    (hp : p ∈ sortTxns txns) : p.2 ∈ txns :=
  mem_enumFrom_snd txns 0 p (((sortTxns_perm txns).mem_iff).mp hp)

theorem sortTxns_fst_nodup (txns : List Txn) :
    ((sortTxns txns).map Prod.fst).Nodup := by
  have hperm := (sortTxns_perm txns).map Prod.fst
  rw [hperm.nodup_iff, List.enum_map_fst]
  exact List.nodup_range _

theorem sortTxns_ne_nil (txns : List Txn) (htx : txns ≠ []) :
    sortTxns txns ≠ [] := by
  intro h
  apply htx
  have := (sortTxns_perm txns).symm.length_eq
  rw [h] at this
  simp only [List.length_nil] at this
  have hlen : txns.length = 0 := by
    rw [List.enum_length] at this
    omega
  exact List.length_eq_zero.mp hlen

theorem sum_map_eq_sum_filter (l : List (Nat × Txn)) (q : Nat × Txn → Bool)
    (f : Nat × Txn → ℚ) :
    ((l.filter q).map f).sum
      = (l.map (fun p => if q p then f p else 0)).sum := by
  induction l with
  | nil => simp
  | cons p rest ih =>
      by_cases h : q p <;> simp [List.filter_cons, h, ih]

theorem mem_map_fst_filter_iff (ts : List (Nat × Txn))
    (hnd : (ts.map Prod.fst).Nodup) (q : Nat × Txn → Bool) (p : Nat × Txn)
    (hp : p ∈ ts) :
    p.1 ∈ (ts.filter q).map Prod.fst ↔ q p = true := by
  constructor
  · intro h
    obtain ⟨p', hp'mem, hp'eq⟩ := List.mem_map.mp h
    have hp'ts : p' ∈ ts := List.mem_of_mem_filter hp'mem
    have heq : p' = p := List.inj_on_of_nodup_map hnd hp'ts hp hp'eq
    rw [← heq]
    exact List.of_mem_filter hp'mem
  · intro h
    exact List.mem_map.mpr ⟨p, List.mem_filter.mpr ⟨hp, h⟩, rfl⟩

/-- Total of DEPOSIT quantities (`D` of the claim). -/
def totalDepositAmount (txns : List Txn) : ℚ :=
  ((txns.filter (fun t => decide (t.side = Side.deposit))).map
    (fun t => t.quantity)).sum

/-- Total spent on buys, quantity × price (fees counted separately). -/
def totalBuyCost (txns : List Txn) : ℚ :=
  ((txns.filter (fun t => decide (t.side = Side.buy))).map
    (fun t => t.quantity * t.price)).sum

/-- Total sale proceeds, quantity × price (fees counted separately). -/
def totalSellProceeds (txns : List Txn) : ℚ :=
  ((txns.filter (fun t => decide (t.side = Side.sell))).map
    (fun t => t.quantity * t.price)).sum

/-- Total fees charged on BUY and SELL rows (the only rows whose fee the
engine reads). -/
def totalTradeFees (txns : List Txn) : ℚ :=
  ((txns.filter (fun t => decide (t.side = Side.buy))).map feeOf).sum
    + ((txns.filter (fun t => decide (t.side = Side.sell))).map feeOf).sum

/-- Total of WITHDRAW quantities. -/
def totalWithdrawalAmount (txns : List Txn) : ℚ :=
  ((txns.filter (fun t => decide (t.side = Side.withdraw))).map
    (fun t => t.quantity)).sum

theorem sum_txnCashEffect (txns : List Txn) :
    (txns.map txnCashEffect).sum
      = totalDepositAmount txns - totalBuyCost txns + totalSellProceeds txns
        - totalTradeFees txns - totalWithdrawalAmount txns := by
  induction txns with
  | nil =>
      simp [totalDepositAmount, totalBuyCost, totalSellProceeds,
        totalTradeFees, totalWithdrawalAmount]
  | cons t rest ih =>
      simp only [totalDepositAmount, totalBuyCost, totalSellProceeds,
        totalTradeFees, totalWithdrawalAmount] at ih ⊢
      cases hs : t.side <;>
        simp only [List.map_cons, List.sum_cons, List.filter_cons, hs,
          txnCashEffect, decide_eq_true_eq] <;>
        simp <;>
        linear_combination ih

theorem sum_map_sub_distrib (l : List (Nat × Txn)) (f g : Nat × Txn → ℚ) :
    (l.map (fun p => f p - g p)).sum = (l.map f).sum - (l.map g).sum := by
  induction l with
  | nil => simp
  | cons p rest ih =>
      simp only [List.map_cons, List.sum_cons, ih]
      ring

theorem txnCashEffectWith_no_removed (skips : List Nat) (p : Nat × Txn) :
    txnCashEffectWith [] skips p
      = txnCashEffect p.2
        - (if p.2.side = Side.deposit ∧ p.1 ∈ skips then p.2.quantity
           else 0) := by
  unfold txnCashEffectWith txnCashEffect
  cases hs : p.2.side <;> simp [hs]
  by_cases hk : p.1 ∈ skips <;> simp [hk]

theorem enumFrom_map_snd_sum {α : Type} (e : α → ℚ) :
    ∀ (l : List α) (n : Nat),
      ((l.enumFrom n).map (fun p => e p.2)).sum = (l.map e).sum
  | [], _ => rfl
  | a :: l, n => by
      rw [List.enumFrom]
      simp only [List.map_cons, List.sum_cons]
      rw [enumFrom_map_snd_sum e l (n + 1)]

/-- The skipped-deposit indicator sums to the skipped rows' quantities. -/
theorem sum_skip_indicator (ts : List (Nat × Txn)) (q : Nat × Txn → Bool)
    (hnd : (ts.map Prod.fst).Nodup)
    (hq : ∀ p, q p = true → p.2.side = Side.deposit) :
    (ts.map (fun p =>
        if p.2.side = Side.deposit ∧ p.1 ∈ (ts.filter q).map Prod.fst
        then p.2.quantity else 0)).sum
      = ((ts.filter q).map (fun p => p.2.quantity)).sum := by
  rw [sum_map_eq_sum_filter]
  apply congrArg List.sum
  apply List.map_congr_left
  intro p hp
  have hiff := mem_map_fst_filter_iff ts hnd q p hp
  by_cases h : q p = true
  · rw [if_pos ⟨hq p h, hiff.mpr h⟩, if_pos h]
  · have hneg : ¬ (p.2.side = Side.deposit
        ∧ p.1 ∈ (ts.filter q).map Prod.fst) := by
      intro hc
      exact h (hiff.mp hc.2)
    rw [if_neg hneg, if_neg h]

theorem DateTime.leRefl (a : DateTime) : DateTime.le a a := by
  unfold DateTime.le; omega

theorem DateTime.leTrans {a b c : DateTime} (h1 : DateTime.le a b)
    (h2 : DateTime.le b c) : DateTime.le a c := by
  unfold DateTime.le at *; omega

theorem DateTime.le_total (a b : DateTime) :
    DateTime.le a b ∨ DateTime.le b a := by
  unfold DateTime.le; omega

theorem Date.le_of_dateTime_le {a b : DateTime} (h : DateTime.le a b) :
    Date.le a.date b.date := by
  unfold DateTime.le at h
  unfold Date.le
  omega

theorem foldMinDT_le (l : List Txn) (d0 : DateTime) :
    DateTime.le
      (l.foldl (fun acc x => if DateTime.le x.dt acc then x.dt else acc) d0) d0
    ∧ ∀ t ∈ l, DateTime.le
        (l.foldl (fun acc x => if DateTime.le x.dt acc then x.dt else acc) d0)
        t.dt := by
  induction l generalizing d0 with
  | nil => exact ⟨DateTime.leRefl d0, by simp⟩
  | cons x xs ih =>
      simp only [List.foldl_cons]
      obtain ⟨ha, hb⟩ := ih (if DateTime.le x.dt d0 then x.dt else d0)
      have hd1le : DateTime.le (if DateTime.le x.dt d0 then x.dt else d0) d0 := by
        split_ifs with h
        · exact h
        · exact DateTime.leRefl d0
      have hd1x : DateTime.le (if DateTime.le x.dt d0 then x.dt else d0) x.dt := by
        split_ifs with h
        · exact DateTime.leRefl x.dt
        · rcases DateTime.le_total x.dt d0 with h2 | h2
          · exact absurd h2 h
          · exact h2
      refine ⟨DateTime.leTrans ha hd1le, ?_⟩
      intro t ht
      rcases List.mem_cons.mp ht with rfl | ht
      · exact DateTime.leTrans ha hd1x
      · exact hb t ht

theorem firstTxnDate_le (txns : List Txn) (s : Date)
    (h : firstTxnDate txns = some s) : ∀ t ∈ txns, Date.le s t.dt.date := by
  cases txns with
  | nil => simp [firstTxnDate] at h
  | cons t0 rest =>
      simp only [firstTxnDate, Option.some.injEq] at h
      subst h
      intro t ht
      obtain ⟨ha, hb⟩ := foldMinDT_le rest t0.dt
      rcases List.mem_cons.mp ht with rfl | ht
      · exact Date.le_of_dateTime_le ha
      · exact Date.le_of_dateTime_le (hb t ht)

theorem engineStartDate_le_txn (txns : List Txn) (today : Date)
    (htx : txns ≠ []) (t : Txn) (ht : t ∈ txns) :
    Date.le (engineStartDate txns [] today) t.dt.date := by
  obtain ⟨s, hs⟩ : ∃ s, firstTxnDate txns = some s := by
    cases txns with
    | nil => exact absurd rfl htx
    | cons a l => exact ⟨_, rfl⟩
  simp only [engineStartDate, hs]
  exact firstTxnDate_le txns s hs t ht

theorem txn_date_mem_engineAllDates (txns : List Txn)
    (priceHistory : String → PriceHistory)
    (handling : List (String × StaleTickerAction)) (today : Date)
    (p : Nat × Txn) (hp : p ∈ sortTxns txns) (htx : txns ≠ [])
    (htoday : Date.le p.2.dt.date today) :
    p.2.dt.date ∈ engineAllDates txns [] priceHistory handling today := by
  unfold engineAllDates
  rw [List.mem_filter]
  constructor
  · rw [(List.perm_insertionSort Date.le _).mem_iff, List.mem_dedup]
    refine List.mem_append.mpr (Or.inl (List.mem_append.mpr (Or.inr ?_)))
    exact List.mem_map.mpr ⟨p, hp, rfl⟩
  · rw [decide_eq_true_eq]
    exact ⟨engineStartDate_le_txn txns today htx p.2 (mem_sortTxns_snd txns p hp),
      htoday⟩

theorem engineAllDates_nodup (txns : List Txn) (bonds : List BondPosition)
    (priceHistory : String → PriceHistory)
    (handling : List (String × StaleTickerAction)) (today : Date) :
    (engineAllDates txns bonds priceHistory handling today).Nodup := by
  unfold engineAllDates
  exact List.Nodup.filter _
    (((List.perm_insertionSort Date.le _).nodup_iff).mpr (List.nodup_dedup _))

theorem getLast?_map {α β : Type} (f : α → β) :
    ∀ l : List α, (l.map f).getLast? = (l.getLast?).map f
  | [] => rfl
  | [a] => rfl
  | a :: b :: l => by
      rw [List.map_cons]
      rw [getLast?_cons_of_ne (f a) _ (by simp),
        getLast?_cons_of_ne a (b :: l) (by simp)]
      exact getLast?_map f (b :: l)

/-- The early-deposit selection as a single predicate over the sorted
rows. -/
def earlyDepositPred (ts : List (Nat × Txn)) : Nat × Txn → Bool :=
  fun p => decide (p.2.side = Side.deposit)
    && (match (ts.filter (fun r =>
          decide (r.2.side = Side.buy ∨ r.2.side = Side.sell))).head? with
        | some ft => decide (DateTime.le p.2.dt.floorMin ft.2.dt.floorMin)
        | none => true)

theorem earlyDepositRows_eq_filter (ts : List (Nat × Txn)) :
    earlyDepositRows ts = ts.filter (earlyDepositPred ts) := by
  unfold earlyDepositRows earlyDepositPred
  cases htr : (ts.filter (fun r =>
      decide (r.2.side = Side.buy ∨ r.2.side = Side.sell))).head? with
  | some ft =>
      simp only [htr, List.filter_filter]
      exact List.filter_congr (fun a _ => by rw [Bool.and_comm])
  | none =>
      simp only [htr]
      exact List.filter_congr (fun a _ => by rw [Bool.and_true])

theorem earlyDepositPred_deposit (ts : List (Nat × Txn)) (p : Nat × Txn)
    (h : earlyDepositPred ts p = true) : p.2.side = Side.deposit := by
  unfold earlyDepositPred at h
  rw [Bool.and_eq_true] at h
  exact of_decide_eq_true h.1

/-- Final cash of the replay with no bonds and no stale handling: initial
cash plus the summed per-row effects. -/
theorem final_cash_formula (txns : List Txn)
    (priceHistory : String → PriceHistory) (today : Date)
    (events0 : List LiquidationEvent) (htx : txns ≠ [])
    (htoday : ∀ t ∈ txns, Date.le t.dt.date today) :
    (engineRun txns [] priceHistory [] today events0).1.cash
      = (engineInitCash txns).initial_cash
        + ((sortTxns txns).map
            (txnCashEffectWith []
              (engineInitCash txns).initial_deposit_indices)).sum := by
  have hsum := sum_day_groups (engineAllDates txns [] priceHistory [] today)
    (sortTxns txns)
    (txnCashEffectWith [] (engineInitCash txns).initial_deposit_indices)
    (engineAllDates_nodup txns [] priceHistory [] today)
    (fun p hp => txn_date_mem_engineAllDates txns priceHistory [] today p hp
      htx (htoday p.2 (mem_sortTxns_snd txns p hp)))
  unfold engineRun
  rw [replayAll_cash _ rfl rfl]
  simp only [engineCtx, engineInitState, removedSymbols, List.filter_nil,
    List.map_nil]
  rw [hsum]

theorem sum_effWith (txns : List Txn) (skips : List Nat) :
    ((sortTxns txns).map (txnCashEffectWith [] skips)).sum
      = (txns.map txnCashEffect).sum
        - ((sortTxns txns).map (fun p =>
            if p.2.side = Side.deposit ∧ p.1 ∈ skips then p.2.quantity
            else 0)).sum := by
  have h1 : ((sortTxns txns).map (txnCashEffectWith [] skips)).sum
      = ((sortTxns txns).map (fun p => txnCashEffect p.2
          - (if p.2.side = Side.deposit ∧ p.1 ∈ skips then p.2.quantity
             else 0))).sum :=
    congrArg List.sum
      (List.map_congr_left (fun p _ => txnCashEffectWith_no_removed skips p))
  rw [h1, sum_map_sub_distrib]
  congr 1
  have hperm := (sortTxns_perm txns).map (fun p : Nat × Txn => txnCashEffect p.2)
  rw [hperm.sum_eq]
  exact enumFrom_map_snd_sum txnCashEffect txns 0

theorem sum_indicator_early (txns : List Txn) :
    ((sortTxns txns).map (fun p =>
        if p.2.side = Side.deposit
            ∧ p.1 ∈ (earlyDepositRows (sortTxns txns)).map Prod.fst
        then p.2.quantity else 0)).sum
      = ((earlyDepositRows (sortTxns txns)).map (fun p => p.2.quantity)).sum := by
  rw [earlyDepositRows_eq_filter]
  exact sum_skip_indicator (sortTxns txns) (earlyDepositPred (sortTxns txns))
    (sortTxns_fst_nodup txns) (earlyDepositPred_deposit (sortTxns txns))

/-- C2 (amended): in TRANSACTION mode with no bonds and no stale-ticker
handling, provided at least one DEPOSIT occurs at or before (floored to
the minute) the first BUY/SELL (or there are deposits and no trades), all
transactions are dated no later than today, and at least one symbol has
price data (so the engine does not return the empty series), the final
entry of `cash_history` equals exactly
`D − total_spent + total_proceeds − total_fees − total_withdrawals`,
where the sums range over the whole transaction list — hence the value is
independent of the order of the rows. Without such an early deposit the
engine adds `suggested_initial_deposit` to the balance and the claimed
identity fails (see the counterexample). -/
theorem C2_cash_conservation (txns : List Txn)
    (priceHistory : String → PriceHistory) (today : Date)
    (events0 : List LiquidationEvent) (failed0 : List String)
    (hEarly : earlyDepositRows (sortTxns txns) ≠ [])
    (htoday : ∀ t ∈ txns, Date.le t.dt.date today)
    (hpd : (enginePriceData txns priceHistory []).data ≠ []) :
    ((calculate_nav_history_impl txns [] priceHistory [] today events0
        failed0).cashHistory.getLast?).map Prod.snd
      = some (totalDepositAmount txns - totalBuyCost txns
          + totalSellProceeds txns - totalTradeFees txns
          - totalWithdrawalAmount txns) := by
  have htx : txns ≠ [] := by
    intro h
    subst h
    exact hEarly rfl
  have h1 : txns.isEmpty = false := by
    cases txns with
    | nil => exact absurd rfl htx
    | cons a l => rfl
  have hpdF : (enginePriceData txns priceHistory []).data.isEmpty = false := by
    cases hc : (enginePriceData txns priceHistory []).data with
    | nil => exact absurd hc hpd
    | cons a l => rfl
  obtain ⟨p0, hp0⟩ : ∃ p, p ∈ sortTxns txns := by
    cases hs : sortTxns txns with
    | nil => exact absurd hs (sortTxns_ne_nil txns htx)
    | cons a l => exact ⟨a, List.mem_cons_self a l⟩
  have hadne : engineAllDates txns [] priceHistory [] today ≠ [] :=
    List.ne_nil_of_mem (txn_date_mem_engineAllDates txns priceHistory [] today
      p0 hp0 htx (htoday p0.2 (mem_sortTxns_snd txns p0 hp0)))
  have hadF : (engineAllDates txns [] priceHistory [] today).isEmpty
      = false := by
    cases hc : engineAllDates txns [] priceHistory [] today with
    | nil => exact absurd hc hadne
    | cons a l => rfl
  obtain ⟨rlast, hrl1, hrl2, _⟩ := replayAll_getLast
    (engineCtx txns [] priceHistory [] today)
    (engineAllDates txns [] priceHistory [] today)
    (engineInitState txns [] events0) hadne
  have hfc := final_cash_formula txns priceHistory today events0 htx htoday
  obtain ⟨_, b2⟩ := infer_initial_cash_spec (sortTxns txns)
  have hic : engineInitCash txns = infer_initial_cash (sortTxns txns) := by
    unfold engineInitCash
    simp [h1]
  simp only [calculate_nav_history_impl, h1, hpdF, hadF, Bool.false_eq_true,
    false_and, if_false]
  rw [getLast?_map]
  have hrun : (engineRun txns [] priceHistory [] today events0).2.getLast?
      = some rlast := hrl1
  rw [hrun]
  have hlast : rlast.cash
      = (engineRun txns [] priceHistory [] today events0).1.cash := hrl2
  simp only [Option.map_some']
  rw [hlast, hfc]
  rw [hic, b2 hEarly] at *
  dsimp only
  rw [sum_effWith txns ((earlyDepositRows (sortTxns txns)).map Prod.fst),
    sum_indicator_early txns, sum_txnCashEffect txns]
  have halg : ((earlyDepositRows (sortTxns txns)).map
        (fun p => p.2.quantity)).sum
      + (totalDepositAmount txns - totalBuyCost txns + totalSellProceeds txns
          - totalTradeFees txns - totalWithdrawalAmount txns
        - ((earlyDepositRows (sortTxns txns)).map
            (fun p => p.2.quantity)).sum)
      = totalDepositAmount txns - totalBuyCost txns + totalSellProceeds txns
        - totalTradeFees txns - totalWithdrawalAmount txns := by
    ring
  rw [halg]

set_option maxRecDepth 400000 in
/-- C2 counterexample: a single BUY of 1 share at 100 (no deposits, D = 0).
The claimed identity says the final cash is −100, but the engine first
infers `suggested_initial_deposit = 100` and uses it as initial cash, so
the final cash is 0. -/
theorem C2_counterexample :
    ((calculate_nav_history_impl
        [⟨⟨⟨2020, 1, 2⟩, 0⟩, "X", Side.buy, 1, 100, some 0⟩] []
        (fun s => if s = "X" then [(⟨2020, 1, 2⟩, 100)] else []) []
        ⟨2020, 1, 3⟩ [] []).cashHistory.getLast?).map Prod.snd = some 0
    ∧ totalDepositAmount [⟨⟨⟨2020, 1, 2⟩, 0⟩, "X", Side.buy, 1, 100, some 0⟩]
        - totalBuyCost [⟨⟨⟨2020, 1, 2⟩, 0⟩, "X", Side.buy, 1, 100, some 0⟩]
        + totalSellProceeds [⟨⟨⟨2020, 1, 2⟩, 0⟩, "X", Side.buy, 1, 100, some 0⟩]
        - totalTradeFees [⟨⟨⟨2020, 1, 2⟩, 0⟩, "X", Side.buy, 1, 100, some 0⟩]
        - totalWithdrawalAmount
            [⟨⟨⟨2020, 1, 2⟩, 0⟩, "X", Side.buy, 1, 100, some 0⟩] = -100
    ∧ (some (0 : ℚ) : Option ℚ) ≠ some (-100 : ℚ) :=
  ⟨by with_unfolding_all rfl, by with_unfolding_all rfl,
    of_decide_eq_false (by with_unfolding_all rfl)⟩

set_option maxRecDepth 400000 in
/-- Witness for C2 on the worked example: the early deposit of 10000
exists, and the final cash 10498 equals
`10000 − 1000 + 1500 − 2 − 0` exactly. -/
theorem C2_witness :
    earlyDepositRows (sortTxns txnsC1) ≠ []
    ∧ ((calculate_nav_history_impl txnsC1 [] priceFnC1 [] ⟨2020, 12, 31⟩ []
          []).cashHistory.getLast?).map Prod.snd
        = some (totalDepositAmount txnsC1 - totalBuyCost txnsC1
            + totalSellProceeds txnsC1 - totalTradeFees txnsC1
            - totalWithdrawalAmount txnsC1)
    ∧ totalDepositAmount txnsC1 - totalBuyCost txnsC1
        + totalSellProceeds txnsC1 - totalTradeFees txnsC1
        - totalWithdrawalAmount txnsC1 = 10498 := by
  have he : earlyDepositRows (sortTxns txnsC1) ≠ [] :=
    of_decide_eq_true (by with_unfolding_all rfl)
  refine ⟨he, ?_, by with_unfolding_all rfl⟩
  exact C2_cash_conservation txnsC1 priceFnC1 ⟨2020, 12, 31⟩ [] [] he
    (of_decide_eq_true (by with_unfolding_all rfl))
    (of_decide_eq_true (by with_unfolding_all rfl))

/-! ## Liquidation events: provenance and per-symbol uniqueness -/

/-- Invariant of the replay's event list: every event records
`cash_amount = price × quantity` with the price/date taken from the
stale-ticker tables, there is at most one event per symbol, and a symbol
with an event is marked liquidated. -/
def goodEvents (sld : List (String × Date)) (slp : List (String × ℚ))
    (events : List LiquidationEvent) (liq : List String) : Prop :=
  (∀ e ∈ events,
      e.cash_amount = e.price * e.quantity
      ∧ (∃ ld, sld.find? (fun p => decide (p.1 = e.symbol)) = some ld
          ∧ e.date = ld.2)
      ∧ e.price = (match slp.find? (fun p => decide (p.1 = e.symbol)) with
          | some p => p.2
          | none => 0))
  ∧ ∀ sym,
      ((events.filter (fun e => decide (e.symbol = sym))).length ≤ 1
      ∧ ((events.filter (fun e => decide (e.symbol = sym))) ≠ [] → sym ∈ liq))

theorem goodEvents_nil (sld : List (String × Date)) (slp : List (String × ℚ))
    (liq : List String) : goodEvents sld slp [] liq := by
  constructor
  · intro e he
    simp at he
  · intro sym
    simp

theorem applyTxn_events (removed : List String) (skip : List Nat)
    (st : ReplayState) (p : Nat × Txn) :
    (applyTxn removed skip st p).events = st.events
    ∧ (applyTxn removed skip st p).liquidatedSymbols
        = st.liquidatedSymbols := by
  unfold applyTxn
  by_cases hr : p.2.symbol ∈ removed
  · simp [hr]
  · cases hs : p.2.side
    · simp [hr, hs]
    · simp [hr, hs]
    · by_cases hk : p.1 ∈ skip <;> simp [hr, hs, hk]
    · simp [hr, hs]

theorem foldl_applyTxn_events (removed : List String) (skip : List Nat) :
    ∀ (l : List (Nat × Txn)) (st : ReplayState),
      (l.foldl (applyTxn removed skip) st).events = st.events
      ∧ (l.foldl (applyTxn removed skip) st).liquidatedSymbols
          = st.liquidatedSymbols
  | [], st => ⟨rfl, rfl⟩
  | p :: rest, st => by
      rw [List.foldl_cons]
      obtain ⟨h1, h2⟩ := foldl_applyTxn_events removed skip rest
        (applyTxn removed skip st p)
      obtain ⟨h3, h4⟩ := applyTxn_events removed skip st p
      exact ⟨h1.trans h3, h2.trans h4⟩

theorem couponFold_fields (cs : List (Date × ℚ)) :
    ∀ st : ReplayState,
      ((cs.foldl (fun s c =>
          { s with
              cash := s.cash + c.2
              cumulativeCoupon := s.cumulativeCoupon + c.2 }) st).events
          = st.events)
      ∧ ((cs.foldl (fun s c =>
          { s with
              cash := s.cash + c.2
              cumulativeCoupon := s.cumulativeCoupon + c.2 }) st).liquidatedSymbols
          = st.liquidatedSymbols)
      ∧ ((cs.foldl (fun s c =>
          { s with
              cash := s.cash + c.2
              cumulativeCoupon := s.cumulativeCoupon + c.2 }) st).holdings
          = st.holdings) := by
  induction cs with
  | nil => intro st; exact ⟨rfl, rfl, rfl⟩
  | cons c rest ih =>
      intro st
      rw [List.foldl_cons]
      exact ih _

theorem applyBondCash_events (d : Date) (st : ReplayState)
    (bond : BondPosition) :
    (applyBondCash d st bond).events = st.events
    ∧ (applyBondCash d st bond).liquidatedSymbols = st.liquidatedSymbols
    ∧ (applyBondCash d st bond).holdings = st.holdings := by
  unfold applyBondCash
  by_cases h1 : Date.lt d bond.purchase_date
  · rw [if_pos h1]
    exact ⟨rfl, rfl, rfl⟩
  · rw [if_neg h1]
    have hst1 : ∀ s1 : ReplayState,
        s1.events = st.events → s1.liquidatedSymbols = st.liquidatedSymbols →
        s1.holdings = st.holdings →
        ((((generate_coupon_payments bond d d).foldl (fun s c =>
            { s with
                cash := s.cash + c.2
                cumulativeCoupon := s.cumulativeCoupon + c.2 }) s1)).events
            = st.events)
        ∧ (((generate_coupon_payments bond d d).foldl (fun s c =>
            { s with
                cash := s.cash + c.2
                cumulativeCoupon := s.cumulativeCoupon + c.2 }) s1)).liquidatedSymbols
            = st.liquidatedSymbols
        ∧ (((generate_coupon_payments bond d d).foldl (fun s c =>
            { s with
                cash := s.cash + c.2
                cumulativeCoupon := s.cumulativeCoupon + c.2 }) s1)).holdings
            = st.holdings := by
      intro s1 he hl hh
      obtain ⟨a, b, c⟩ := couponFold_fields (generate_coupon_payments bond d d) s1
      exact ⟨a.trans he, b.trans hl, c.trans hh⟩
    by_cases h2 : bond.id ∈ st.purchasedBonds
    · rw [if_pos h2]
      obtain ⟨a, b, c⟩ := hst1 st rfl rfl rfl
      dsimp only
      split_ifs <;> exact ⟨a, b, c⟩
    · rw [if_neg h2]
      obtain ⟨a, b, c⟩ := hst1
        { st with
            cash := st.cash - calculate_bond_cost_basis bond
            purchasedBonds := st.purchasedBonds ++ [bond.id] } rfl rfl rfl
      dsimp only
      split_ifs <;> exact ⟨a, b, c⟩

theorem goodEvents_mono_liq (sld : List (String × Date))
    (slp : List (String × ℚ)) (events : List LiquidationEvent)
    (liq liq2 : List String) (hsub : ∀ s ∈ liq, s ∈ liq2)
    (hg : goodEvents sld slp events liq) : goodEvents sld slp events liq2 :=
  ⟨hg.1, fun sym => ⟨(hg.2 sym).1, fun hne => hsub sym ((hg.2 sym).2 hne)⟩⟩

theorem applyLiquidation_good (sld : List (String × Date))
    (slp : List (String × ℚ)) (removed : List String) (dt : Date)
    (st : ReplayState) (h : String × StaleTickerAction)
    (hg : goodEvents sld slp st.events st.liquidatedSymbols) :
    goodEvents sld slp (applyLiquidation sld slp removed dt st h).events
      (applyLiquidation sld slp removed dt st h).liquidatedSymbols := by
  unfold applyLiquidation
  by_cases h1 : h.1 ∈ st.liquidatedSymbols ∨ h.1 ∈ removed
  · rw [if_pos h1]
    exact hg
  · rw [if_neg h1]
    by_cases h2 : h.2 = StaleTickerAction.liquidate
    · rw [if_pos h2]
      cases hld : sld.find? (fun p => decide (p.1 = h.1)) with
      | none => exact hg
      | some ld =>
          dsimp only
          by_cases h3 : Date.lt ld.2 dt
          · rw [if_pos h3]
            by_cases h4 : 0 < getQty st.holdings h.1
            · rw [if_pos h4]
              dsimp only
              constructor
              · intro e he
                rw [List.mem_append] at he
                rcases he with he | he
                · exact hg.1 e he
                · rw [List.mem_singleton] at he
                  subst he
                  exact ⟨rfl, ⟨ld, hld, rfl⟩, rfl⟩
              · intro sym
                by_cases hsym : h.1 = sym
                · subst hsym
                  have hold : st.events.filter
                      (fun e => decide (e.symbol = h.1)) = [] := by
                    by_contra hne
                    exact h1 (Or.inl ((hg.2 h.1).2 hne))
                  rw [List.filter_append, hold]
                  constructor
                  · simp
                  · intro _
                    exact List.mem_append.mpr (Or.inr (List.mem_singleton.mpr rfl))
                · have hnew : ([(⟨ld.2, h.1,
                      (match slp.find? (fun p => decide (p.1 = h.1)) with
                        | some p => p.2
                        | none => 0), getQty st.holdings h.1,
                      (match slp.find? (fun p => decide (p.1 = h.1)) with
                        | some p => p.2
                        | none => 0) * getQty st.holdings h.1⟩ :
                      LiquidationEvent)].filter
                        (fun e => decide (e.symbol = sym))) = [] := by
                    simp [hsym]
                  rw [List.filter_append, hnew, List.append_nil]
                  exact ⟨(hg.2 sym).1, fun hne =>
                    List.mem_append.mpr (Or.inl ((hg.2 sym).2 hne))⟩
            · rw [if_neg h4]
              exact hg
          · rw [if_neg h3]
            exact hg
    · rw [if_neg h2]
      exact hg

theorem foldl_applyLiquidation_good (sld : List (String × Date))
    (slp : List (String × ℚ)) (removed : List String) (dt : Date) :
    ∀ (hnd : List (String × StaleTickerAction)) (st : ReplayState),
      goodEvents sld slp st.events st.liquidatedSymbols →
      goodEvents sld slp
        ((hnd.foldl (applyLiquidation sld slp removed dt) st)).events
        ((hnd.foldl (applyLiquidation sld slp removed dt) st)).liquidatedSymbols
  | [], st, hg => hg
  | h :: rest, st, hg => by
      rw [List.foldl_cons]
      exact foldl_applyLiquidation_good sld slp removed dt rest _
        (applyLiquidation_good sld slp removed dt st h hg)

theorem foldl_applyBondCash_events (d : Date) :
    ∀ (bonds : List BondPosition) (st : ReplayState),
      (bonds.foldl (applyBondCash d) st).events = st.events
      ∧ (bonds.foldl (applyBondCash d) st).liquidatedSymbols
          = st.liquidatedSymbols
      ∧ (bonds.foldl (applyBondCash d) st).holdings = st.holdings
  | [], st => ⟨rfl, rfl, rfl⟩
  | b :: rest, st => by
      rw [List.foldl_cons]
      obtain ⟨a1, a2, a3⟩ := foldl_applyBondCash_events d rest
        (applyBondCash d st b)
      obtain ⟨b1, b2, b3⟩ := applyBondCash_events d st b
      exact ⟨a1.trans b1, a2.trans b2, a3.trans b3⟩

theorem replayDay_good (ctx : ReplayCtx) (st : ReplayState) (dt : Date)
    (hg : goodEvents ctx.staleLastDates ctx.staleLastPrices st.events
      st.liquidatedSymbols) :
    goodEvents ctx.staleLastDates ctx.staleLastPrices
      (replayDay ctx st dt).1.events
      (replayDay ctx st dt).1.liquidatedSymbols := by
  unfold replayDay
  dsimp only
  obtain ⟨t1, t2⟩ := foldl_applyTxn_events ctx.removed ctx.skipIdx
    (ctx.txns_sorted.filter (fun p => decide (p.2.dt.date = dt))) st
  have hg1 : goodEvents ctx.staleLastDates ctx.staleLastPrices
      ((ctx.txns_sorted.filter (fun p => decide (p.2.dt.date = dt))).foldl
        (applyTxn ctx.removed ctx.skipIdx) st).events
      ((ctx.txns_sorted.filter (fun p => decide (p.2.dt.date = dt))).foldl
        (applyTxn ctx.removed ctx.skipIdx) st).liquidatedSymbols := by
    rw [t1, t2]
    exact hg
  have hg2 := foldl_applyLiquidation_good ctx.staleLastDates
    ctx.staleLastPrices ctx.removed dt ctx.handling _ hg1
  obtain ⟨b1, b2, _⟩ := foldl_applyBondCash_events dt ctx.bonds
    (ctx.handling.foldl (applyLiquidation ctx.staleLastDates
      ctx.staleLastPrices ctx.removed dt)
      ((ctx.txns_sorted.filter (fun p => decide (p.2.dt.date = dt))).foldl
        (applyTxn ctx.removed ctx.skipIdx) st))
  rw [b1, b2]
  exact hg2

theorem replayAll_good (ctx : ReplayCtx) :
    ∀ (dates : List Date) (st : ReplayState),
      goodEvents ctx.staleLastDates ctx.staleLastPrices st.events
        st.liquidatedSymbols →
      goodEvents ctx.staleLastDates ctx.staleLastPrices
        (replayAll ctx st dates).1.events
        (replayAll ctx st dates).1.liquidatedSymbols
  | [], st, hg => hg
  | d :: rest, st, hg => by
      rw [replayAll]
      exact replayAll_good ctx rest (replayDay ctx st d).1
        (replayDay_good ctx st d hg)

/-- Any impl run started with an empty event list yields at most one
liquidation event per symbol. -/
theorem impl_events_unique (txns : List Txn) (bonds : List BondPosition)
    (pc : String → PriceHistory)
    (handling : List (String × StaleTickerAction)) (today : Date)
    (fl : List String) (sym : String) :
    ((calculate_nav_history_impl txns bonds pc handling today []
        fl).liquidationEvents.filter
      (fun e => decide (e.symbol = sym))).length ≤ 1 := by
  unfold calculate_nav_history_impl
  by_cases hA : txns.isEmpty ∧ bonds.isEmpty
  · rw [if_pos hA]
    simp [emptyNavResult]
  · rw [if_neg hA]
    dsimp only
    by_cases hB : (enginePriceData txns pc handling).data.isEmpty = true
        ∧ bonds.isEmpty = true
    · rw [if_pos hB]
      simp [emptyNavResult]
    · rw [if_neg hB]
      by_cases hC : (engineAllDates txns bonds pc handling today).isEmpty = true
      · rw [if_pos hC]
        simp [emptyNavResult]
      · rw [if_neg hC]
        dsimp only
        have hg := replayAll_good (engineCtx txns bonds pc handling today)
          (engineAllDates txns bonds pc handling today)
          (engineInitState txns handling [])
          (goodEvents_nil _ _ _)
        exact (hg.2 sym).1

/-! ## The engine as a state machine (`PortfolioEngine` caching layer)

`__init__` stores the transactions and bonds and empty caches;
`_get_price_history` is a request-scoped cache over a fixed fetch
function, so the whole price layer is modelled as one
`String → PriceHistory` map that `set_price_cache` may replace.
`_calculate_nav_history_impl` appends to `self.liquidation_events` and
`self.failed_tickers` as it runs; the final lists equal the
`liquidationEvents` / `failedTickers` fields of the returned
`NavResult`, so the post-call state reads them off the result. The
other series the impl stores on `self` (`cash_history`, …) are carried
inside `NavResult` and not duplicated here. -/

/-- The `_prepare_base_data` bundle, restricted to the series-valued
entries the caching claims speak about (`nav` and `returns`; the
holdings/prices/weights entries are point-in-time lookups orthogonal to
the replay). -/
structure BaseData where
  nav : List (Date × ℚ)
  returns : List (Date × ℚ)

structure EngineState where
  txns : List Txn
  bonds : List BondPosition
  priceCache : String → PriceHistory
  handling : List (String × StaleTickerAction)
  navCache : Option NavResult
  baseCache : Option BaseData
  liquidation_events : List LiquidationEvent
  failed_tickers : List String

/-- `PortfolioEngine.__init__` for a TRANSACTION portfolio. -/
def initEngine (txns : List Txn) (bonds : List BondPosition)
    (pc : String → PriceHistory) : EngineState :=
  ⟨txns, bonds, pc, [], none, none, [], []⟩

/-- `nav.pct_change(fill_method=None).dropna()`: daily returns keyed by
the later date; the leading NaN row is dropped. -/
def pct_change_dropna (nav : List (Date × ℚ)) : List (Date × ℚ) :=
  (nav.zip nav.tail).map (fun p => (p.2.1, p.2.2 / p.1.2 - 1))

/-- `PortfolioEngine.calculate_nav_history`: memoized via `_nav_cache`. -/
def calculate_nav_history (today : Date) (s : EngineState) :
    NavResult × EngineState :=
  match s.navCache with
  | some r => (r, s)
  | none =>
      let r := calculate_nav_history_impl s.txns s.bonds s.priceCache
        s.handling today s.liquidation_events s.failed_tickers
      (r, { s with
            navCache := some r
            liquidation_events := r.liquidationEvents
            failed_tickers := r.failedTickers })

/-- `PortfolioEngine._prepare_base_data`: memoized via
`_base_data_cache`; on a miss it calls `calculate_nav_history` and
derives the returns series. -/
def prepare_base_data (today : Date) (s : EngineState) :
    BaseData × EngineState :=
  match s.baseCache with
  | some b => (b, s)
  | none =>
      let p := calculate_nav_history today s
      let b : BaseData := ⟨p.1.navHistory, pct_change_dropna p.1.navHistory⟩
      (b, { p.2 with baseCache := some b })

/-- `PortfolioEngine.set_stale_ticker_handling`: stores the new policy
and clears `_nav_cache`, `_base_data_cache` and `liquidation_events`
(`failed_tickers` and `_price_cache` are left alone). -/
def set_stale_ticker_handling (h : List (String × StaleTickerAction))
    (s : EngineState) : EngineState :=
  { s with
    handling := h
    navCache := none
    baseCache := none
    liquidation_events := [] }

/-- `PortfolioEngine.set_price_cache`: replaces the price cache only. -/
def set_price_cache (pc : String → PriceHistory) (s : EngineState) :
    EngineState :=
  { s with priceCache := pc }

/-- `PortfolioEngine.get_liquidation_events`. -/
def get_liquidation_events (s : EngineState) : List LiquidationEvent :=
  s.liquidation_events

/-- States an engine built on a fixed transaction list can reach through
its public operations. -/
inductive EngineReach (txns : List Txn) (bonds : List BondPosition)
    (pc0 : String → PriceHistory) : EngineState → Prop
  | init : EngineReach txns bonds pc0 (initEngine txns bonds pc0)
  | calcNav (today : Date) (s : EngineState) :
      EngineReach txns bonds pc0 s →
      EngineReach txns bonds pc0 (calculate_nav_history today s).2
  | setHandling (h : List (String × StaleTickerAction)) (s : EngineState) :
      EngineReach txns bonds pc0 s →
      EngineReach txns bonds pc0 (set_stale_ticker_handling h s)
  | setPriceCache (pc : String → PriceHistory) (s : EngineState) :
      EngineReach txns bonds pc0 s →
      EngineReach txns bonds pc0 (set_price_cache pc s)
  | prepBase (today : Date) (s : EngineState) :
      EngineReach txns bonds pc0 s →
      EngineReach txns bonds pc0 (prepare_base_data today s).2

/-- The reachable-state invariant behind C10: with no cached NAV the
event list is empty, and with a cached NAV the event list is exactly the
one of that cached result, which itself came from a single impl run
started on an empty event list. -/
def EngineEventsInv (s : EngineState) : Prop :=
  (s.navCache = none → s.liquidation_events = [])
  ∧ ∀ r, s.navCache = some r →
      s.liquidation_events = r.liquidationEvents
      ∧ ∃ pc today fl, r = calculate_nav_history_impl s.txns s.bonds pc
          s.handling today [] fl

theorem engineReach_inv (txns : List Txn) (bonds : List BondPosition)
    (pc0 : String → PriceHistory) (s : EngineState)
    (hr : EngineReach txns bonds pc0 s) : EngineEventsInv s := by
  induction hr with
  | init =>
      exact ⟨fun _ => rfl, fun r hr => by simp [initEngine] at hr⟩
  | calcNav today s _ ih =>
      cases hnc : s.navCache with
      | some r =>
          have h1 : (calculate_nav_history today s).2 = s := by
            unfold calculate_nav_history
            rw [hnc]
          rw [h1]
          exact ih
      | none =>
          have hev := ih.1 hnc
          constructor
          · intro hcontra
            unfold calculate_nav_history at hcontra
            rw [hnc] at hcontra
            simp at hcontra
          · intro r hr
            unfold calculate_nav_history at hr ⊢
            rw [hnc] at hr ⊢
            dsimp only at hr ⊢
            injection hr with hr
            refine ⟨by rw [← hr], s.priceCache, today, s.failed_tickers, ?_⟩
            rw [← hr, hev]
  | setHandling h s _ _ =>
      exact ⟨fun _ => rfl, fun r hr => by
        simp [set_stale_ticker_handling] at hr⟩
  | setPriceCache pc s _ ih =>
      obtain ⟨i1, i2⟩ := ih
      exact ⟨i1, fun r hr => ⟨(i2 r hr).1, (i2 r hr).2⟩⟩
  | prepBase today s _ ih =>
      cases hbc : s.baseCache with
      | some b =>
          have h1 : (prepare_base_data today s).2 = s := by
            unfold prepare_base_data
            rw [hbc]
          rw [h1]
          exact ih
      | none =>
          have h1 : (prepare_base_data today s).2
              = { (calculate_nav_history today s).2 with
                  baseCache := some ⟨(calculate_nav_history today s).1.navHistory,
                    pct_change_dropna (calculate_nav_history today s).1.navHistory⟩ } := by
            unfold prepare_base_data
            rw [hbc]
          rw [h1]
          have hcalc : EngineEventsInv (calculate_nav_history today s).2 := by
            cases hnc : s.navCache with
            | some r =>
                have h2 : (calculate_nav_history today s).2 = s := by
                  unfold calculate_nav_history
                  rw [hnc]
                rw [h2]
                exact ih
            | none =>
                have hev := ih.1 hnc
                constructor
                · intro hcontra
                  unfold calculate_nav_history at hcontra
                  rw [hnc] at hcontra
                  simp at hcontra
                · intro r hr
                  unfold calculate_nav_history at hr ⊢
                  rw [hnc] at hr ⊢
                  dsimp only at hr ⊢
                  injection hr with hr
                  refine ⟨by rw [← hr], s.priceCache, today, s.failed_tickers, ?_⟩
                  rw [← hr, hev]
          exact ⟨hcalc.1, fun r hr => ⟨(hcalc.2 r hr).1, (hcalc.2 r hr).2⟩⟩

/-- C4: `calculate_nav_history` is memoized per engine instance — a
second call on the unmodified engine returns the identical cached result
and leaves the state unchanged — and `set_stale_ticker_handling` clears
both the memoized NAV and the base-data bundle, so the next
`calculate_nav_history` recomputes the impl under the new stale-ticker
policy (with the event list reset to `[]`), and the next
`_prepare_base_data` rebuilds its bundle from that fresh NAV. -/
theorem C4_memoization_and_cache_invalidation
    (today today2 : Date) (s : EngineState)
    (h : List (String × StaleTickerAction)) :
    calculate_nav_history today2 ((calculate_nav_history today s).2)
      = ((calculate_nav_history today s).1, (calculate_nav_history today s).2)
    ∧ (set_stale_ticker_handling h s).navCache = none
    ∧ (set_stale_ticker_handling h s).baseCache = none
    ∧ (calculate_nav_history today (set_stale_ticker_handling h s)).1
        = calculate_nav_history_impl s.txns s.bonds s.priceCache h today []
            s.failed_tickers
    ∧ (prepare_base_data today (set_stale_ticker_handling h s)).1
        = ⟨(calculate_nav_history today
              (set_stale_ticker_handling h s)).1.navHistory,
           pct_change_dropna (calculate_nav_history today
              (set_stale_ticker_handling h s)).1.navHistory⟩ := by
  refine ⟨?_, rfl, rfl, rfl, rfl⟩
  cases hnc : s.navCache with
  | some r => simp only [calculate_nav_history, hnc]
  | none => simp only [calculate_nav_history, hnc]

/-- C10: on every reachable engine state, `get_liquidation_events`
returns only the events of the single most recent NAV computation (the
cached result's own list, or `[]` when no NAV is cached, since
`set_stale_ticker_handling` resets the list along with the caches), that
list holds at most one `LiquidationEvent` per symbol, and a repeated
memoized `calculate_nav_history` call leaves the event list unchanged
(never appends duplicates). -/
theorem C10_liquidation_events_invariant
    (txns : List Txn) (bonds : List BondPosition)
    (pc0 : String → PriceHistory) (s : EngineState)
    (hr : EngineReach txns bonds pc0 s) :
    (∀ sym, ((get_liquidation_events s).filter
        (fun e => decide (e.symbol = sym))).length ≤ 1)
    ∧ (s.navCache = none → get_liquidation_events s = [])
    ∧ (∀ r, s.navCache = some r →
        get_liquidation_events s = r.liquidationEvents)
    ∧ ∀ today, (calculate_nav_history today
          ((calculate_nav_history today s).2)).2.liquidation_events
        = (calculate_nav_history today s).2.liquidation_events := by
  have inv := engineReach_inv txns bonds pc0 s hr
  refine ⟨?_, fun hn => inv.1 hn, fun r hr => (inv.2 r hr).1, ?_⟩
  · intro sym
    cases hnc : s.navCache with
    | none =>
        rw [get_liquidation_events, inv.1 hnc]
        simp
    | some r =>
        obtain ⟨hev, pc, today, fl, hrimpl⟩ := inv.2 r hnc
        rw [get_liquidation_events, hev, hrimpl]
        exact impl_events_unique s.txns s.bonds pc s.handling today fl sym
  · intro today
    cases hnc : s.navCache with
    | some r => simp only [calculate_nav_history, hnc]
    | none => simp only [calculate_nav_history, hnc]

theorem C10_witness :
    get_liquidation_events (set_stale_ticker_handling
      [("AAPL", StaleTickerAction.liquidate)]
      ((calculate_nav_history ⟨2020, 12, 31⟩
        (initEngine txnsC1 [] priceFnC1)).2)) = [] :=
  (C10_liquidation_events_invariant txnsC1 [] priceFnC1 _
    (EngineReach.setHandling _ _
      (EngineReach.calcNav _ _ EngineReach.init))).2.1 rfl

/-! ## Historical VaR (`indicators/tail_risk.calculate_var`)

`np.percentile(a, q)` with the default linear interpolation: sort the
data ascending, set `h = q*(n-1)/100`, and interpolate between the
values at positions `⌊h⌋` and `⌊h⌋+1` (the upper index clamped into
range, which the `getD` default realises). -/

def quantileInterp (s : List ℚ) (h : ℚ) : ℚ :=
  let i : ℕ := (⌊h⌋).toNat
  let lo := s.getD i 0
  let hi := s.getD (i + 1) lo
  lo + (h - (i : ℚ)) * (hi - lo)

def percentileQ (xs : List ℚ) (q : ℚ) : ℚ :=
  quantileInterp (List.insertionSort (· ≤ ·) xs)
    (q * ((xs.length : ℚ) - 1) / 100)

/-- `tail_risk.calculate_var`: 0.0 on an empty series, otherwise the
`(1 - confidence_level)*100` percentile of the returns. -/
def calculate_var (returns : List ℚ) (confidence_level : ℚ) : ℚ :=
  if returns = [] then 0
  else percentileQ returns ((1 - confidence_level) * 100)

theorem getD_default_irrel (s : List ℚ) (n : ℕ) (d : ℚ)
    (h : n < s.length) : s.getD n d = s.getD n 0 := by
  simp [List.getD_eq_getElem?_getD, List.getElem?_eq_getElem h]

theorem getD_mono_of_sorted (s : List ℚ)
    (hs : List.Sorted (· ≤ ·) s) {i j : ℕ} (hij : i ≤ j)
    (hj : j < s.length) : s.getD i 0 ≤ s.getD j 0 := by
  have hi : i < s.length := Nat.lt_of_le_of_lt hij hj
  rcases Nat.lt_or_ge i j with hlt | hge
  · have h1 := hs.rel_get_of_lt
      (show (⟨i, hi⟩ : Fin s.length) < ⟨j, hj⟩ from hlt)
    simpa [List.getD_eq_getElem?_getD, List.getElem?_eq_getElem hi,
      List.getElem?_eq_getElem hj, List.get_eq_getElem] using h1
  · have : i = j := Nat.le_antisymm hij hge
    rw [this]

theorem quantile_next_ge (s : List ℚ) (hs : List.Sorted (· ≤ ·) s)
    (i : ℕ) (hi : i < s.length) :
    s.getD i 0 ≤ s.getD (i + 1) (s.getD i 0) := by
  by_cases h : i + 1 < s.length
  · rw [getD_default_irrel s (i + 1) _ h]
    exact getD_mono_of_sorted s hs (Nat.le_succ i) h
  · have hge : s.length ≤ i + 1 := by omega
    rw [List.getD_eq_default _ _ hge]

theorem floor_toNat_cast (h : ℚ) (hh : 0 ≤ h) :
    ((⌊h⌋.toNat : ℕ) : ℚ) = (⌊h⌋ : ℚ) := by
  have : 0 ≤ ⌊h⌋ := Int.floor_nonneg.mpr hh
  exact_mod_cast Int.toNat_of_nonneg this

theorem quantileInterp_ge_lo (s : List ℚ) (hs : List.Sorted (· ≤ ·) s)
    (h : ℚ) (hh0 : 0 ≤ h) (hin : (⌊h⌋).toNat < s.length) :
    s.getD (⌊h⌋).toNat 0 ≤ quantileInterp s h := by
  unfold quantileInterp
  dsimp only
  have h1 : ((⌊h⌋.toNat : ℕ) : ℚ) ≤ h := by
    rw [floor_toNat_cast h hh0]
    exact Int.floor_le h
  have h2 := quantile_next_ge s hs (⌊h⌋).toNat hin
  nlinarith [mul_nonneg (sub_nonneg.mpr h1) (sub_nonneg.mpr h2)]

theorem quantileInterp_le_hi (s : List ℚ) (hs : List.Sorted (· ≤ ·) s)
    (h : ℚ) (hh0 : 0 ≤ h) (hin : (⌊h⌋).toNat < s.length) :
    quantileInterp s h ≤ s.getD ((⌊h⌋).toNat + 1) (s.getD (⌊h⌋).toNat 0) := by
  unfold quantileInterp
  dsimp only
  have h1 : h < ((⌊h⌋.toNat : ℕ) : ℚ) + 1 := by
    rw [floor_toNat_cast h hh0]
    exact Int.lt_floor_add_one h
  have h2 := quantile_next_ge s hs (⌊h⌋).toNat hin
  nlinarith [mul_nonneg (sub_nonneg.mpr (le_of_lt h1)) (sub_nonneg.mpr h2)]

theorem quantileInterp_mono (s : List ℚ) (hs : List.Sorted (· ≤ ·) s)
    (h1 h2 : ℚ) (hh0 : 0 ≤ h1) (hh : h1 ≤ h2)
    (hub : h2 ≤ (s.length : ℚ) - 1) :
    quantileInterp s h1 ≤ quantileInterp s h2 := by
  have hh0' : 0 ≤ h2 := le_trans hh0 hh
  have hfl : ⌊h1⌋ ≤ ⌊h2⌋ := Int.floor_le_floor hh
  have hn1 : 1 ≤ s.length := by
    by_contra hc
    have : s.length = 0 := by omega
    rw [this] at hub
    have := le_trans hh0' hub
    norm_num at this
  have hi2 : (⌊h2⌋).toNat < s.length := by
    have ha : (⌊h2⌋ : ℚ) ≤ (s.length : ℚ) - 1 := le_trans (Int.floor_le h2) hub
    have hb : ⌊h2⌋ ≤ (s.length : ℤ) - 1 := by exact_mod_cast ha
    omega
  have hi1 : (⌊h1⌋).toNat < s.length := by
    have := Int.floor_nonneg.mpr hh0
    omega
  rcases Nat.lt_or_ge (⌊h1⌋).toNat (⌊h2⌋).toNat with hlt | hge
  · have step1 := quantileInterp_le_hi s hs h1 hh0 hi1
    have step3 := quantileInterp_ge_lo s hs h2 hh0' hi2
    have hmid : s.getD ((⌊h1⌋).toNat + 1) (s.getD (⌊h1⌋).toNat 0)
        ≤ s.getD (⌊h2⌋).toNat 0 := by
      have hrange : (⌊h1⌋).toNat + 1 < s.length ∨
          (⌊h1⌋).toNat + 1 = (⌊h2⌋).toNat := by omega
      have hle : (⌊h1⌋).toNat + 1 ≤ (⌊h2⌋).toNat := hlt
      have hin : (⌊h1⌋).toNat + 1 < s.length := by omega
      rw [getD_default_irrel s _ _ hin]
      exact getD_mono_of_sorted s hs hle hi2
    exact le_trans step1 (le_trans hmid step3)
  · have heq : (⌊h1⌋).toNat = (⌊h2⌋).toNat := by
      have := Int.floor_nonneg.mpr hh0
      omega
    unfold quantileInterp
    dsimp only
    rw [← heq]
    have hdiff := quantile_next_ge s hs (⌊h1⌋).toNat hi1
    nlinarith [mul_nonneg (sub_nonneg.mpr hh) (sub_nonneg.mpr hdiff)]

theorem percentileQ_mono (xs : List ℚ) (q1 q2 : ℚ) (hne : xs ≠ [])
    (h0 : 0 ≤ q1) (h12 : q1 ≤ q2) (h100 : q2 ≤ 100) :
    percentileQ xs q1 ≤ percentileQ xs q2 := by
  have hn : 1 ≤ xs.length := List.length_pos.mpr hne
  have hn' : (1 : ℚ) ≤ (xs.length : ℚ) := by exact_mod_cast hn
  have hlen0 : (0 : ℚ) ≤ (xs.length : ℚ) - 1 := by linarith
  unfold percentileQ
  apply quantileInterp_mono
  · exact List.sorted_insertionSort _ xs
  · exact div_nonneg (mul_nonneg h0 hlen0) (by norm_num)
  · linarith [mul_le_mul_of_nonneg_right h12 hlen0]
  · rw [(List.perm_insertionSort (· ≤ ·) xs).length_eq,
      div_le_iff₀ (by norm_num : (0:ℚ) < 100)]
    nlinarith [mul_le_mul_of_nonneg_right h100 hlen0]

/-- C8: historical VaR is monotone in the confidence level — for every
non-empty returns series, `calculate_var(r, 0.99) ≤ calculate_var(r,
0.95) ≤ calculate_var(r, 0.90)`: a lower confidence reads a higher
percentile of the sorted returns, and linear-interpolated percentiles
of a sorted list are non-decreasing in the percentile. -/
theorem C8_var_monotone_in_confidence (returns : List ℚ)
    (hne : returns ≠ []) :
    calculate_var returns (99 / 100) ≤ calculate_var returns (95 / 100)
    ∧ calculate_var returns (95 / 100) ≤ calculate_var returns (90 / 100) := by
  unfold calculate_var
  simp only [if_neg hne]
  constructor
  · exact percentileQ_mono returns ((1 - 99 / 100) * 100)
      ((1 - 95 / 100) * 100) hne (by norm_num) (by norm_num) (by norm_num)
  · exact percentileQ_mono returns ((1 - 95 / 100) * 100)
      ((1 - 90 / 100) * 100) hne (by norm_num) (by norm_num) (by norm_num)

theorem C8_witness :
    ([(1 : ℚ), -2, 3] ≠ [])
    ∧ calculate_var [(1 : ℚ), -2, 3] (99 / 100)
        ≤ calculate_var [(1 : ℚ), -2, 3] (95 / 100)
    ∧ calculate_var [(1 : ℚ), -2, 3] (95 / 100)
        ≤ calculate_var [(1 : ℚ), -2, 3] (90 / 100) :=
  ⟨by simp, C8_var_monotone_in_confidence [(1 : ℚ), -2, 3] (by simp)⟩

/-! ## Benchmark comparison (`indicators/correlation_beta.py`,
`indicators/ratios.py`, `indicators/aggregator.py`)

Return series are date-indexed (`ℤ` day keys, unique and sorted, as a
pandas index is); `Series.align(…, join='inner')` keeps the key
intersection, here read off in the first series' order. Sample
statistics use `ddof = 1` as pandas does; a float `sqrt` becomes
`Real.sqrt` over the exact rational variance, so the metrics that the
source computes through `sqrt` are `ℝ`-valued while every other metric
stays an exact `ℚ` computation. pandas `std` of a length-≤1 series is
NaN; every call site below either guards to length ≥ 2 first or (in
`calculate_m2_measure`) is only ever invoked by our theorems on series
of length ≥ 2, so the `length ≤ 1 → 0` branch of `varQ` is inert.
Lean's division-by-zero-equals-0 convention coincides with the one NaN
the source converts to 0.0 (`corr` of a zero-variance series). -/

def meanQ (xs : List ℚ) : ℚ := xs.sum / (xs.length : ℚ)

def varQ (xs : List ℚ) : ℚ :=
  if xs.length ≤ 1 then 0
  else ((xs.map (fun x => (x - meanQ xs) ^ 2)).sum) / ((xs.length : ℚ) - 1)

def covQ (xys : List (ℚ × ℚ)) : ℚ :=
  if xys.length ≤ 1 then 0
  else ((xys.map (fun p => (p.1 - meanQ (xys.map Prod.fst))
      * (p.2 - meanQ (xys.map Prod.snd)))).sum) / ((xys.length : ℚ) - 1)

noncomputable def stdR (xs : List ℚ) : ℝ := Real.sqrt ((varQ xs : ℚ) : ℝ)

/-- `returns.calculate_annualized_return` (mean × 252). -/
def calculate_annualized_return (xs : List ℚ) : ℚ :=
  if xs = [] then 0 else meanQ xs * 252

/-- `risk.calculate_annualized_volatility` (std × √252). -/
noncomputable def calculate_annualized_volatility (xs : List ℚ) : ℝ :=
  if xs = [] then 0 else stdR xs * Real.sqrt 252

/-- `a.align(b, join='inner')`, paired up as (a-value, b-value). -/
def alignInner (a b : List (ℤ × ℚ)) : List (ℚ × ℚ) :=
  (a.filter (fun p => ((b.find? (fun q2 => decide (q2.1 = p.1))).isSome))).map
    (fun p => (p.2, ((b.find? (fun q2 => decide (q2.1 = p.1))).map
      Prod.snd).getD 0))

/-- The beta computation all alignment-aware callers share (aligned
pairs in, `len < 2` and zero-variance guards). -/
def betaAligned (al : List (ℚ × ℚ)) : ℚ :=
  if al.length < 2 then 0
  else if varQ (al.map Prod.snd) = 0 then 0
  else covQ al / varQ (al.map Prod.snd)

def calculate_beta (p b : List (ℤ × ℚ)) : ℚ :=
  if p = [] ∨ b = [] then 0 else betaAligned (alignInner p b)

/-- `calculate_alpha`: its inner `calculate_beta(aligned, aligned)` call
re-aligns two identically-indexed series, which is the identity, hence
`betaAligned` on the same pairs. -/
def calculate_alpha (p b : List (ℤ × ℚ)) (rf : ℚ) : ℚ :=
  if p = [] ∨ b = [] then 0
  else
    let al := alignInner p b
    if al.length < 2 then 0
    else meanQ (al.map Prod.fst) * 252
      - (rf + betaAligned al * (meanQ (al.map Prod.snd) * 252 - rf))

/-- `calculate_r_squared`: `stats.linregress` r-value squared, with the
regressor (benchmark) on the x axis. -/
noncomputable def calculate_r_squared (p b : List (ℤ × ℚ)) : ℝ :=
  if p = [] ∨ b = [] then 0
  else
    let al := alignInner p b
    if al.length < 2 then 0
    else (((covQ al : ℚ) : ℝ)
      / (stdR (al.map Prod.snd) * stdR (al.map Prod.fst))) ^ 2

noncomputable def calculate_correlation_to_portfolio
    (p b : List (ℤ × ℚ)) : ℝ :=
  if p = [] ∨ b = [] then 0
  else
    let al := alignInner p b
    if al.length < 2 then 0
    else ((covQ al : ℚ) : ℝ)
      / (stdR (al.map Prod.fst) * stdR (al.map Prod.snd))

noncomputable def calculate_tracking_error (p b : List (ℤ × ℚ)) : ℝ :=
  if p = [] ∨ b = [] then 0
  else
    let al := alignInner p b
    if al.length < 2 then 0
    else stdR (al.map (fun pr => pr.1 - pr.2)) * Real.sqrt 252

noncomputable def calculate_information_ratio (p b : List (ℤ × ℚ)) : ℝ :=
  if p = [] ∨ b = [] then 0
  else
    let al := alignInner p b
    if al.length < 2 then 0
    else
      let ex := al.map (fun pr => pr.1 - pr.2)
      let te := stdR ex * Real.sqrt 252
      if te = 0 then 0 else ((meanQ ex * 252 : ℚ) : ℝ) / te

def calculate_upside_capture (p b : List (ℤ × ℚ)) : ℚ :=
  if p = [] ∨ b = [] then 0
  else
    let al := alignInner p b
    if al.length < 2 then 0
    else
      let up := al.filter (fun pr => decide (0 < pr.2))
      if up.length = 0 ∨ meanQ (up.map Prod.snd) = 0 then 0
      else (meanQ (up.map Prod.fst) / meanQ (up.map Prod.snd)) * 100

def calculate_downside_capture (p b : List (ℤ × ℚ)) : ℚ :=
  if p = [] ∨ b = [] then 0
  else
    let al := alignInner p b
    if al.length < 2 then 0
    else
      let dn := al.filter (fun pr => decide (pr.2 < 0))
      if dn.length = 0 ∨ meanQ (dn.map Prod.snd) = 0 then 0
      else (meanQ (dn.map Prod.fst) / meanQ (dn.map Prod.snd)) * 100

/-- `ratios.calculate_treynor_ratio`, called on the *unaligned*
portfolio series with the already-computed beta. -/
def calculate_treynor_ratio (returns : List (ℤ × ℚ)) (beta rf : ℚ) : ℚ :=
  if returns = [] ∨ beta = 0 then 0
  else (calculate_annualized_return (returns.map Prod.snd) - rf) / beta

/-- `ratios.calculate_m2_measure`: note it never aligns the two series
and has no overlap guard — only the emptiness and zero-portfolio-vol
guards. -/
noncomputable def calculate_m2_measure
    (returns benchmark_returns : List (ℤ × ℚ)) (rf : ℚ) : ℝ :=
  if returns = [] ∨ benchmark_returns = [] then 0
  else
    let p_vol := calculate_annualized_volatility (returns.map Prod.snd)
    if p_vol = 0 then 0
    else (rf : ℝ)
      + ((calculate_annualized_return (returns.map Prod.snd) - rf : ℚ) : ℝ)
          / p_vol
        * calculate_annualized_volatility (benchmark_returns.map Prod.snd)
      - ((calculate_annualized_return (benchmark_returns.map Prod.snd) : ℚ) : ℝ)

structure BenchMetrics where
  beta : ℝ
  alpha : ℝ
  r_squared : ℝ
  correlation : ℝ
  tracking_error : ℝ
  information_ratio : ℝ
  upside_capture : ℝ
  downside_capture : ℝ
  treynor_ratio : ℝ
  m2_measure : ℝ

/-- `correlation_beta.calculate_all_benchmark_metrics`. -/
noncomputable def calculate_all_benchmark_metrics
    (p b : List (ℤ × ℚ)) (rf : ℚ) : BenchMetrics :=
  if p = [] ∨ b = [] then ⟨0, 0, 0, 0, 0, 0, 0, 0, 0, 0⟩
  else
    ⟨(calculate_beta p b : ℝ),
     (calculate_alpha p b rf : ℝ),
     calculate_r_squared p b,
     calculate_correlation_to_portfolio p b,
     calculate_tracking_error p b,
     calculate_information_ratio p b,
     (calculate_upside_capture p b : ℝ),
     (calculate_downside_capture p b : ℝ),
     (calculate_treynor_ratio p (calculate_beta p b) rf : ℝ),
     calculate_m2_measure p b rf⟩

/-- `correlation_beta.calculate_multi_benchmark_metrics`. -/
noncomputable def calculate_multi_benchmark_metrics
    (p : List (ℤ × ℚ)) (dict : List (String × List (ℤ × ℚ)))
    (rf : ℚ) : List (String × BenchMetrics) :=
  dict.map (fun e => (e.1, calculate_all_benchmark_metrics p e.2 rf))

/-- `aggregator.calculate_benchmark_comparison` (a plain wrapper). -/
noncomputable def calculate_benchmark_comparison
    (p : List (ℤ × ℚ)) (dict : List (String × List (ℤ × ℚ)))
    (rf : ℚ) : List (String × BenchMetrics) :=
  calculate_multi_benchmark_metrics p dict rf

/-- Portfolio returns on days 1–2; disjoint from the benchmark's days. -/
def prC7 : List (ℤ × ℚ) := [(1, 0), (2, 1 / 50)]

/-- Benchmark returns on days 10–11, constant (zero sample variance). -/
def brC7 : List (ℤ × ℚ) := [(10, 1 / 100), (11, 1 / 100)]

theorem C7_counterexample :
    prC7 ≠ [] ∧ brC7 ≠ []
    ∧ (alignInner prC7 brC7).length < 2
    ∧ (calculate_all_benchmark_metrics prC7 brC7 0).m2_measure
        = -((63 : ℝ) / 25)
    ∧ (calculate_all_benchmark_metrics prC7 brC7 0).m2_measure ≠ 0 := by
  have hguard : ¬(prC7 = [] ∨ brC7 = []) := by simp [prC7, brC7]
  have h1 : varQ (prC7.map Prod.snd) = 1 / 5000 := by
    with_unfolding_all rfl
  have h2 : varQ (brC7.map Prod.snd) = 0 := by
    with_unfolding_all rfl
  have h3 : calculate_annualized_return (prC7.map Prod.snd) = 63 / 25 := by
    with_unfolding_all rfl
  have h4 : calculate_annualized_return (brC7.map Prod.snd) = 63 / 25 := by
    with_unfolding_all rfl
  have hb0 : calculate_annualized_volatility (brC7.map Prod.snd) = 0 := by
    unfold calculate_annualized_volatility stdR
    rw [if_neg (by simp [brC7]), h2]
    norm_num
  have hpvpos :
      0 < calculate_annualized_volatility (prC7.map Prod.snd) := by
    unfold calculate_annualized_volatility stdR
    rw [if_neg (by simp [prC7]), h1]
    apply mul_pos
    · exact Real.sqrt_pos.mpr (by norm_num)
    · exact Real.sqrt_pos.mpr (by norm_num)
  have hm2 : calculate_m2_measure prC7 brC7 0 = -((63 : ℝ) / 25) := by
    unfold calculate_m2_measure
    rw [if_neg hguard]
    dsimp only
    rw [if_neg (ne_of_gt hpvpos), hb0, h3, h4]
    push_cast
    ring
  have hfield : (calculate_all_benchmark_metrics prC7 brC7 0).m2_measure
      = calculate_m2_measure prC7 brC7 0 := by
    unfold calculate_all_benchmark_metrics
    rw [if_neg hguard]
  refine ⟨by simp [prC7], by simp [brC7], by decide, ?_, ?_⟩
  · rw [hfield, hm2]
  · rw [hfield, hm2]
    norm_num

/-- C7 (amended): `calculate_benchmark_comparison` computes each
per-benchmark metric bundle by `calculate_all_benchmark_metrics`, and
whenever both series are non-empty but fewer than 2 observations
overlap, the nine alignment-aware metrics (beta, alpha, r_squared,
correlation, tracking_error, information_ratio, upside_capture,
downside_capture, treynor_ratio) all default to 0.0 — but not
necessarily m2_measure, which ignores alignment (see the
counterexample). -/
theorem C7_benchmark_low_overlap_amended
    (p b : List (ℤ × ℚ)) (dict : List (String × List (ℤ × ℚ))) (rf : ℚ)
    (hp : p ≠ []) (hb : b ≠ []) (hlen : (alignInner p b).length < 2) :
    calculate_benchmark_comparison p dict rf
      = dict.map (fun e => (e.1, calculate_all_benchmark_metrics p e.2 rf))
    ∧ (calculate_all_benchmark_metrics p b rf).beta = 0
    ∧ (calculate_all_benchmark_metrics p b rf).alpha = 0
    ∧ (calculate_all_benchmark_metrics p b rf).r_squared = 0
    ∧ (calculate_all_benchmark_metrics p b rf).correlation = 0
    ∧ (calculate_all_benchmark_metrics p b rf).tracking_error = 0
    ∧ (calculate_all_benchmark_metrics p b rf).information_ratio = 0
    ∧ (calculate_all_benchmark_metrics p b rf).upside_capture = 0
    ∧ (calculate_all_benchmark_metrics p b rf).downside_capture = 0
    ∧ (calculate_all_benchmark_metrics p b rf).treynor_ratio = 0 := by
  have hguard : ¬(p = [] ∨ b = []) := not_or.mpr ⟨hp, hb⟩
  have hbeta : calculate_beta p b = 0 := by
    unfold calculate_beta betaAligned
    rw [if_neg hguard, if_pos hlen]
  have halpha : calculate_alpha p b rf = 0 := by
    unfold calculate_alpha
    rw [if_neg hguard]
    dsimp only
    rw [if_pos hlen]
  have hr2 : calculate_r_squared p b = 0 := by
    unfold calculate_r_squared
    rw [if_neg hguard]
    dsimp only
    rw [if_pos hlen]
  have hcorr : calculate_correlation_to_portfolio p b = 0 := by
    unfold calculate_correlation_to_portfolio
    rw [if_neg hguard]
    dsimp only
    rw [if_pos hlen]
  have hte : calculate_tracking_error p b = 0 := by
    unfold calculate_tracking_error
    rw [if_neg hguard]
    dsimp only
    rw [if_pos hlen]
  have hir : calculate_information_ratio p b = 0 := by
    unfold calculate_information_ratio
    rw [if_neg hguard]
    dsimp only
    rw [if_pos hlen]
  have hup : calculate_upside_capture p b = 0 := by
    unfold calculate_upside_capture
    rw [if_neg hguard]
    dsimp only
    rw [if_pos hlen]
  have hdn : calculate_downside_capture p b = 0 := by
    unfold calculate_downside_capture
    rw [if_neg hguard]
    dsimp only
    rw [if_pos hlen]
  have htr : calculate_treynor_ratio p (calculate_beta p b) rf = 0 := by
    unfold calculate_treynor_ratio
    rw [hbeta, if_pos (Or.inr rfl)]
  have hM : calculate_all_benchmark_metrics p b rf
      = ⟨(calculate_beta p b : ℝ), (calculate_alpha p b rf : ℝ),
         calculate_r_squared p b, calculate_correlation_to_portfolio p b,
         calculate_tracking_error p b, calculate_information_ratio p b,
         (calculate_upside_capture p b : ℝ),
         (calculate_downside_capture p b : ℝ),
         (calculate_treynor_ratio p (calculate_beta p b) rf : ℝ),
         calculate_m2_measure p b rf⟩ := by
    unfold calculate_all_benchmark_metrics
    rw [if_neg hguard]
  rw [hM]
  refine ⟨rfl, ?_, ?_, ?_, ?_, ?_, ?_, ?_, ?_, ?_⟩
  · rw [show BenchMetrics.beta _ = ((calculate_beta p b : ℚ) : ℝ) from rfl,
      hbeta]
    norm_num
  · rw [show BenchMetrics.alpha _ = ((calculate_alpha p b rf : ℚ) : ℝ)
      from rfl, halpha]
    norm_num
  · exact hr2
  · exact hcorr
  · exact hte
  · exact hir
  · rw [show BenchMetrics.upside_capture _
      = ((calculate_upside_capture p b : ℚ) : ℝ) from rfl, hup]
    norm_num
  · rw [show BenchMetrics.downside_capture _
      = ((calculate_downside_capture p b : ℚ) : ℝ) from rfl, hdn]
    norm_num
  · rw [show BenchMetrics.treynor_ratio _
      = ((calculate_treynor_ratio p (calculate_beta p b) rf : ℚ) : ℝ)
      from rfl, htr]
    norm_num

theorem C7_witness :
    prC7 ≠ [] ∧ brC7 ≠ [] ∧ (alignInner prC7 brC7).length < 2
    ∧ (calculate_all_benchmark_metrics prC7 brC7 0).beta = 0
    ∧ (calculate_all_benchmark_metrics prC7 brC7 0).tracking_error = 0 :=
  ⟨by simp [prC7], by simp [brC7], by decide,
   (C7_benchmark_low_overlap_amended prC7 brC7 [] 0 (by simp [prC7])
     (by simp [brC7]) (by decide)).2.1,
   (C7_benchmark_low_overlap_amended prC7 brC7 [] 0 (by simp [prC7])
     (by simp [brC7]) (by decide)).2.2.2.2.2.1⟩

/-! ## C9: the LIQUIDATE invariant -/

theorem getQty_setQty_ne (holdings : List (String × ℚ)) (s sym : String)
    (q : ℚ) (hne : s ≠ sym) :
    getQty (setQty holdings s q) sym = getQty holdings sym := by
  induction holdings with
  | nil =>
      simp [setQty, getQty, hne]
  | cons hd tl ih =>
      by_cases h : hd.1 = s
      · obtain ⟨a, b⟩ := hd
        dsimp at h
        subst h
        simp only [setQty, if_pos rfl]
        simp [getQty, hne]
      · obtain ⟨a, b⟩ := hd
        dsimp at h
        simp only [setQty, if_neg h]
        by_cases h2 : a = sym
        · simp [getQty, h2]
        · simp only [getQty, List.find?] at ih ⊢
          rw [show (decide (a = sym)) = false from by simp [h2]]
          exact ih

theorem getQty_setQty_self (holdings : List (String × ℚ)) (sym : String)
    (q : ℚ) : getQty (setQty holdings sym q) sym = q := by
  induction holdings with
  | nil => simp [setQty, getQty]
  | cons hd tl ih =>
      by_cases h : hd.1 = sym
      · obtain ⟨a, b⟩ := hd
        dsimp at h
        subst h
        simp only [setQty, if_pos rfl]
        simp [getQty]
      · obtain ⟨a, b⟩ := hd
        dsimp at h
        simp only [setQty, if_neg h]
        simp only [getQty, List.find?] at ih ⊢
        rw [show (decide (a = sym)) = false from by simp [h]]
        exact ih

theorem setQty_keys (holdings : List (String × ℚ)) (sym : String) (q : ℚ) :
    (setQty holdings sym q).map Prod.fst
      = if sym ∈ holdings.map Prod.fst then holdings.map Prod.fst
        else holdings.map Prod.fst ++ [sym] := by
  induction holdings with
  | nil => simp [setQty]
  | cons hd tl ih =>
      obtain ⟨a, b⟩ := hd
      by_cases h : a = sym
      · subst h
        simp [setQty]
      · simp only [setQty, if_neg h, List.map_cons, ih, List.mem_cons]
        by_cases h2 : sym ∈ tl.map Prod.fst
        · rw [if_pos h2, if_pos (Or.inr h2)]
        · rw [if_neg h2, if_neg (by
            intro hc
            rcases hc with hc | hc
            · exact h hc.symm
            · exact h2 hc)]
          simp

theorem setQty_keys_nodup (holdings : List (String × ℚ)) (sym : String)
    (q : ℚ) (hn : (holdings.map Prod.fst).Nodup) :
    ((setQty holdings sym q).map Prod.fst).Nodup := by
  rw [setQty_keys]
  by_cases h : sym ∈ holdings.map Prod.fst
  · rw [if_pos h]
    exact hn
  · rw [if_neg h]
    refine List.Nodup.append hn (List.nodup_singleton sym) ?_
    intro a ha hb
    rw [List.mem_singleton] at hb
    subst hb
    exact h ha

theorem getQty_zero_entries (holdings : List (String × ℚ)) (sym : String)
    (hn : (holdings.map Prod.fst).Nodup)
    (h0 : getQty holdings sym = 0) :
    ∀ p ∈ holdings, p.1 = sym → p.2 = 0 := by
  induction holdings with
  | nil =>
      intro p hp
      simp at hp
  | cons hd tl ih =>
      have hn2 : (hd.1 :: tl.map Prod.fst).Nodup := by simpa using hn
      intro p hp hsym
      rcases List.mem_cons.mp hp with hpeq | hptl
      · subst hpeq
        simp only [getQty, List.find?] at h0
        rw [show (decide (p.1 = sym)) = true from by simp [hsym]] at h0
        exact h0
      · by_cases h : hd.1 = sym
        · exfalso
          have hmem : hd.1 ∈ tl.map Prod.fst := by
            rw [h, ← hsym]
            exact List.mem_map.mpr ⟨p, hptl, rfl⟩
          exact (List.nodup_cons.mp hn2).1 hmem
        · simp only [getQty, List.find?] at h0
          rw [show (decide (hd.1 = sym)) = false from by simp [h]] at h0
          exact ih (List.nodup_cons.mp hn2).2 h0 p hptl hsym

theorem applyTxn_getQty_ne (removed : List String) (skip : List Nat)
    (st : ReplayState) (p : Nat × Txn) (sym : String)
    (hne : p.2.symbol ≠ sym) :
    getQty (applyTxn removed skip st p).holdings sym
      = getQty st.holdings sym := by
  unfold applyTxn
  by_cases hr : p.2.symbol ∈ removed
  · rw [if_pos hr]
  · rw [if_neg hr]
    cases hs : p.2.side
    · exact getQty_setQty_ne st.holdings p.2.symbol sym _ hne
    · exact getQty_setQty_ne st.holdings p.2.symbol sym _ hne
    · by_cases hk : p.1 ∈ skip
      · rw [if_pos hk]
      · rw [if_neg hk]
    · rfl

theorem applyTxn_keys_nodup (removed : List String) (skip : List Nat)
    (st : ReplayState) (p : Nat × Txn)
    (hn : (st.holdings.map Prod.fst).Nodup) :
    (((applyTxn removed skip st p).holdings).map Prod.fst).Nodup := by
  unfold applyTxn
  by_cases hr : p.2.symbol ∈ removed
  · rw [if_pos hr]
    exact hn
  · rw [if_neg hr]
    cases hs : p.2.side
    · exact setQty_keys_nodup st.holdings p.2.symbol _ hn
    · exact setQty_keys_nodup st.holdings p.2.symbol _ hn
    · by_cases hk : p.1 ∈ skip
      · rw [if_pos hk]
        exact hn
      · rw [if_neg hk]
        exact hn
    · exact hn

theorem txnFold_getQty (removed : List String) (skip : List Nat)
    (sym : String) :
    ∀ (l : List (Nat × Txn)) (st : ReplayState),
      (∀ p ∈ l, p.2.symbol ≠ sym) →
      getQty ((l.foldl (applyTxn removed skip) st)).holdings sym
        = getQty st.holdings sym
  | [], st, _ => rfl
  | p :: rest, st, h => by
      rw [List.foldl_cons]
      rw [txnFold_getQty removed skip sym rest _
        (fun q hq => h q (List.mem_cons_of_mem p hq))]
      exact applyTxn_getQty_ne removed skip st p sym
        (h p (List.mem_cons_self p rest))

theorem txnFold_keys_nodup (removed : List String) (skip : List Nat) :
    ∀ (l : List (Nat × Txn)) (st : ReplayState),
      (st.holdings.map Prod.fst).Nodup →
      (((l.foldl (applyTxn removed skip) st)).holdings.map Prod.fst).Nodup
  | [], _, hn => hn
  | p :: rest, st, hn => by
      rw [List.foldl_cons]
      exact txnFold_keys_nodup removed skip rest _
        (applyTxn_keys_nodup removed skip st p hn)

theorem applyLiquidation_cases (sld : List (String × Date))
    (slp : List (String × ℚ)) (removed : List String) (d : Date)
    (st : ReplayState) (h : String × StaleTickerAction) :
    (applyLiquidation sld slp removed d st h = st)
    ∨ ((applyLiquidation sld slp removed d st h).holdings
          = setQty st.holdings h.1 0
        ∧ (applyLiquidation sld slp removed d st h).liquidatedSymbols
          = st.liquidatedSymbols ++ [h.1]
        ∧ 0 < getQty st.holdings h.1 ∧ h.1 ∉ st.liquidatedSymbols
        ∧ ∃ ld, sld.find? (fun p => decide (p.1 = h.1)) = some ld
            ∧ Date.lt ld.2 d) := by
  unfold applyLiquidation
  by_cases h1 : h.1 ∈ st.liquidatedSymbols ∨ h.1 ∈ removed
  · rw [if_pos h1]
    exact Or.inl rfl
  · rw [if_neg h1]
    by_cases h2 : h.2 = StaleTickerAction.liquidate
    · rw [if_pos h2]
      cases hld : sld.find? (fun p => decide (p.1 = h.1)) with
      | none => exact Or.inl rfl
      | some ld =>
          dsimp only
          by_cases h3 : Date.lt ld.2 d
          · rw [if_pos h3]
            by_cases h4 : 0 < getQty st.holdings h.1
            · rw [if_pos h4]
              exact Or.inr ⟨rfl, rfl, h4, fun hc => h1 (Or.inl hc),
                ld, rfl, h3⟩
            · rw [if_neg h4]
              exact Or.inl rfl
          · rw [if_neg h3]
            exact Or.inl rfl
    · rw [if_neg h2]
      exact Or.inl rfl

theorem applyLiquidation_keys_nodup (sld : List (String × Date))
    (slp : List (String × ℚ)) (removed : List String) (d : Date)
    (st : ReplayState) (h : String × StaleTickerAction)
    (hn : (st.holdings.map Prod.fst).Nodup) :
    (((applyLiquidation sld slp removed d st h).holdings).map
      Prod.fst).Nodup := by
  rcases applyLiquidation_cases sld slp removed d st h with heq | ⟨hh, _, _, _⟩
  · rw [heq]
    exact hn
  · rw [hh]
    exact setQty_keys_nodup st.holdings h.1 0 hn

theorem applyLiquidation_qty_zero (sld : List (String × Date))
    (slp : List (String × ℚ)) (removed : List String) (d : Date)
    (st : ReplayState) (h : String × StaleTickerAction) (sym : String)
    (h0 : getQty st.holdings sym = 0) :
    getQty (applyLiquidation sld slp removed d st h).holdings sym = 0 := by
  rcases applyLiquidation_cases sld slp removed d st h with heq | ⟨hh, _, _, _⟩
  · rw [heq]
    exact h0
  · rw [hh]
    by_cases hs : h.1 = sym
    · rw [hs]
      exact getQty_setQty_self st.holdings sym 0
    · rw [getQty_setQty_ne st.holdings h.1 sym 0 hs]
      exact h0

theorem applyLiquidation_step_Q (sld : List (String × Date))
    (slp : List (String × ℚ)) (removed : List String) (d : Date)
    (st : ReplayState) (h : String × StaleTickerAction) (sym : String)
    (hQ : getQty st.holdings sym = 0
      ∨ (0 ≤ getQty st.holdings sym ∧ sym ∉ st.liquidatedSymbols)) :
    getQty (applyLiquidation sld slp removed d st h).holdings sym = 0
    ∨ (0 ≤ getQty (applyLiquidation sld slp removed d st h).holdings sym
        ∧ sym ∉ (applyLiquidation sld slp removed d st h).liquidatedSymbols) := by
  rcases applyLiquidation_cases sld slp removed d st h with heq | ⟨hh, hl, _, _⟩
  · rw [heq]
    exact hQ
  · by_cases hs : h.1 = sym
    · left
      rw [hh, hs]
      exact getQty_setQty_self st.holdings sym 0
    · rcases hQ with h0 | ⟨hge, hnotin⟩
      · left
        rw [hh, getQty_setQty_ne st.holdings h.1 sym 0 hs]
        exact h0
      · right
        rw [hh, hl, getQty_setQty_ne st.holdings h.1 sym 0 hs]
        refine ⟨hge, ?_⟩
        intro hc
        rcases List.mem_append.mp hc with hc | hc
        · exact hnotin hc
        · exact hs (List.mem_singleton.mp hc).symm

theorem applyLiquidation_fires (sld : List (String × Date))
    (slp : List (String × ℚ)) (removed : List String) (d : Date)
    (st : ReplayState) (sym : String) (lastD : Date)
    (hfindD : sld.find? (fun p => decide (p.1 = sym)) = some (sym, lastD))
    (hd : Date.lt lastD d) (hrem : sym ∉ removed)
    (hQ : getQty st.holdings sym = 0
      ∨ (0 ≤ getQty st.holdings sym ∧ sym ∉ st.liquidatedSymbols)) :
    getQty (applyLiquidation sld slp removed d st
      (sym, StaleTickerAction.liquidate)).holdings sym = 0 := by
  rcases hQ with h0 | ⟨hge, hnotin⟩
  · exact applyLiquidation_qty_zero sld slp removed d st _ sym h0
  · unfold applyLiquidation
    rw [if_neg (not_or.mpr ⟨hnotin, hrem⟩), if_pos rfl]
    rw [show sld.find? (fun p =>
        decide (p.1 = (sym, StaleTickerAction.liquidate).1)) = some (sym, lastD)
      from hfindD]
    dsimp only
    rw [if_pos hd]
    by_cases h4 : 0 < getQty st.holdings sym
    · rw [if_pos h4]
      exact getQty_setQty_self st.holdings sym 0
    · rw [if_neg h4]
      exact le_antisymm (not_lt.mp h4) hge

theorem liqFold_qty_zero (sld : List (String × Date))
    (slp : List (String × ℚ)) (removed : List String) (d : Date)
    (sym : String) :
    ∀ (hnd : List (String × StaleTickerAction)) (st : ReplayState),
      getQty st.holdings sym = 0 →
      getQty ((hnd.foldl (applyLiquidation sld slp removed d) st)).holdings
        sym = 0
  | [], _, h0 => h0
  | h :: rest, st, h0 => by
      rw [List.foldl_cons]
      exact liqFold_qty_zero sld slp removed d sym rest _
        (applyLiquidation_qty_zero sld slp removed d st h sym h0)

theorem liqFold_keys_nodup (sld : List (String × Date))
    (slp : List (String × ℚ)) (removed : List String) (d : Date) :
    ∀ (hnd : List (String × StaleTickerAction)) (st : ReplayState),
      (st.holdings.map Prod.fst).Nodup →
      (((hnd.foldl (applyLiquidation sld slp removed d) st)).holdings.map
        Prod.fst).Nodup
  | [], _, hn => hn
  | h :: rest, st, hn => by
      rw [List.foldl_cons]
      exact liqFold_keys_nodup sld slp removed d rest _
        (applyLiquidation_keys_nodup sld slp removed d st h hn)

theorem liqFold_fires (sld : List (String × Date))
    (slp : List (String × ℚ)) (removed : List String) (d : Date)
    (sym : String) (lastD : Date)
    (hfindD : sld.find? (fun p => decide (p.1 = sym)) = some (sym, lastD))
    (hd : Date.lt lastD d) (hrem : sym ∉ removed) :
    ∀ (hnd : List (String × StaleTickerAction)) (st : ReplayState),
      (sym, StaleTickerAction.liquidate) ∈ hnd →
      (getQty st.holdings sym = 0
        ∨ (0 ≤ getQty st.holdings sym ∧ sym ∉ st.liquidatedSymbols)) →
      getQty ((hnd.foldl (applyLiquidation sld slp removed d) st)).holdings
        sym = 0
  | h :: rest, st, hmem, hQ => by
      rw [List.foldl_cons]
      rcases List.mem_cons.mp hmem with heq | hrest
      · rw [← heq]
        exact liqFold_qty_zero sld slp removed d sym rest _
          (applyLiquidation_fires sld slp removed d st sym lastD hfindD hd
            hrem hQ)
      · exact liqFold_fires sld slp removed d sym lastD hfindD hd hrem rest _
          hrest (applyLiquidation_step_Q sld slp removed d st h sym hQ)

theorem applyLiquidation_notliq (sld : List (String × Date))
    (slp : List (String × ℚ)) (removed : List String) (d : Date)
    (st : ReplayState) (h : String × StaleTickerAction) (sym : String)
    (lastD : Date)
    (hfindD : sld.find? (fun p => decide (p.1 = sym)) = some (sym, lastD))
    (hnd : ¬ Date.lt lastD d) (hnl : sym ∉ st.liquidatedSymbols) :
    sym ∉ (applyLiquidation sld slp removed d st h).liquidatedSymbols := by
  rcases applyLiquidation_cases sld slp removed d st h with heq |
    ⟨_, hl, _, _, ld, hld, hdate⟩
  · rw [heq]
    exact hnl
  · rw [hl]
    intro hc
    rcases List.mem_append.mp hc with hc | hc
    · exact hnl hc
    · have hs : h.1 = sym := (List.mem_singleton.mp hc).symm
      rw [hs, hfindD] at hld
      injection hld with hld
      rw [← hld] at hdate
      exact hnd hdate

theorem liqFold_notliq (sld : List (String × Date))
    (slp : List (String × ℚ)) (removed : List String) (d : Date)
    (sym : String) (lastD : Date)
    (hfindD : sld.find? (fun p => decide (p.1 = sym)) = some (sym, lastD))
    (hnd : ¬ Date.lt lastD d) :
    ∀ (hnd2 : List (String × StaleTickerAction)) (st : ReplayState),
      sym ∉ st.liquidatedSymbols →
      sym ∉ ((hnd2.foldl (applyLiquidation sld slp removed d) st)).liquidatedSymbols
  | [], _, hnl => hnl
  | h :: rest, st, hnl => by
      rw [List.foldl_cons]
      exact liqFold_notliq sld slp removed d sym lastD hfindD hnd rest _
        (applyLiquidation_notliq sld slp removed d st h sym lastD hfindD hnd
          hnl)

theorem replayDay_snd_holdings (ctx : ReplayCtx) (st : ReplayState)
    (d : Date) :
    (replayDay ctx st d).2.holdings = (replayDay ctx st d).1.holdings := rfl

theorem replayDay_snd_date (ctx : ReplayCtx) (st : ReplayState) (d : Date) :
    (replayDay ctx st d).2.date = d := rfl

theorem replayDay_keys_nodup (ctx : ReplayCtx) (st : ReplayState) (d : Date)
    (hn : (st.holdings.map Prod.fst).Nodup) :
    (((replayDay ctx st d).1).holdings.map Prod.fst).Nodup := by
  unfold replayDay
  dsimp only
  rw [(foldl_applyBondCash_events d ctx.bonds _).2.2]
  exact liqFold_keys_nodup ctx.staleLastDates ctx.staleLastPrices ctx.removed
    d ctx.handling _
    (txnFold_keys_nodup ctx.removed ctx.skipIdx _ st hn)

theorem replayDay_early_notliq (ctx : ReplayCtx) (st : ReplayState)
    (d : Date) (sym : String) (lastD : Date)
    (hfindD : ctx.staleLastDates.find? (fun p => decide (p.1 = sym))
      = some (sym, lastD))
    (hnd : ¬ Date.lt lastD d) (hnl : sym ∉ st.liquidatedSymbols) :
    sym ∉ ((replayDay ctx st d).1).liquidatedSymbols := by
  unfold replayDay
  dsimp only
  rw [(foldl_applyBondCash_events d ctx.bonds _).2.1]
  apply liqFold_notliq ctx.staleLastDates ctx.staleLastPrices ctx.removed d
    sym lastD hfindD hnd ctx.handling
  rw [(foldl_applyTxn_events ctx.removed ctx.skipIdx _ st).2]
  exact hnl

theorem replayDay_late (ctx : ReplayCtx) (st : ReplayState) (d : Date)
    (sym : String) (lastD : Date)
    (hfindD : ctx.staleLastDates.find? (fun p => decide (p.1 = sym))
      = some (sym, lastD))
    (hmem : (sym, StaleTickerAction.liquidate) ∈ ctx.handling)
    (hrem : sym ∉ ctx.removed)
    (hnotx : ∀ p ∈ ctx.txns_sorted, p.2.symbol = sym →
      ¬ Date.lt lastD p.2.dt.date)
    (hd : Date.lt lastD d)
    (hn : (st.holdings.map Prod.fst).Nodup)
    (hQ : getQty st.holdings sym = 0
      ∨ (0 ≤ getQty st.holdings sym ∧ sym ∉ st.liquidatedSymbols)) :
    getQty ((replayDay ctx st d).1).holdings sym = 0
    ∧ (((replayDay ctx st d).1).holdings.map Prod.fst).Nodup := by
  have hno : ∀ p ∈ ctx.txns_sorted.filter
      (fun p => decide (p.2.dt.date = d)), p.2.symbol ≠ sym := by
    intro p hp hcsym
    have hmemtx := List.mem_of_mem_filter hp
    have hdate : p.2.dt.date = d := by
      have := List.of_mem_filter hp
      simpa using this
    exact hnotx p hmemtx hcsym (hdate ▸ hd)
  refine ⟨?_, replayDay_keys_nodup ctx st d hn⟩
  unfold replayDay
  dsimp only
  rw [(foldl_applyBondCash_events d ctx.bonds _).2.2]
  apply liqFold_fires ctx.staleLastDates ctx.staleLastPrices ctx.removed d
    sym lastD hfindD hd hrem ctx.handling _ hmem
  rw [txnFold_getQty ctx.removed ctx.skipIdx sym _ st hno,
    (foldl_applyTxn_events ctx.removed ctx.skipIdx _ st).2]
  exact hQ

theorem replayAll_keys_nodup (ctx : ReplayCtx) :
    ∀ (dates : List Date) (st : ReplayState),
      (st.holdings.map Prod.fst).Nodup →
      ((((replayAll ctx st dates).1).holdings).map Prod.fst).Nodup
  | [], _, hn => hn
  | d :: rest, st, hn => by
      rw [replayAll]
      exact replayAll_keys_nodup ctx rest _ (replayDay_keys_nodup ctx st d hn)

theorem replayAll_early_notliq (ctx : ReplayCtx) (sym : String)
    (lastD : Date)
    (hfindD : ctx.staleLastDates.find? (fun p => decide (p.1 = sym))
      = some (sym, lastD)) :
    ∀ (dates : List Date) (st : ReplayState),
      (∀ d ∈ dates, ¬ Date.lt lastD d) →
      sym ∉ st.liquidatedSymbols →
      sym ∉ ((replayAll ctx st dates).1).liquidatedSymbols
  | [], _, _, hnl => hnl
  | d :: rest, st, hall, hnl => by
      rw [replayAll]
      exact replayAll_early_notliq ctx sym lastD hfindD rest _
        (fun d2 hd2 => hall d2 (List.mem_cons_of_mem d hd2))
        (replayDay_early_notliq ctx st d sym lastD hfindD
          (hall d (List.mem_cons_self d rest)) hnl)

theorem replayAll_dates (ctx : ReplayCtx) :
    ∀ (dates : List Date) (st : ReplayState) (r : ReplayDay),
      r ∈ (replayAll ctx st dates).2 → r.date ∈ dates
  | [], _, _, hr => by simp [replayAll] at hr
  | d :: rest, st, r, hr => by
      rw [replayAll] at hr
      rcases List.mem_cons.mp hr with hr | hr
      · rw [hr, replayDay_snd_date]
        exact List.mem_cons_self d rest
      · exact List.mem_cons_of_mem d (replayAll_dates ctx rest _ r hr)

theorem replayAll_append (ctx : ReplayCtx) :
    ∀ (l1 l2 : List Date) (st : ReplayState),
      replayAll ctx st (l1 ++ l2)
        = ((replayAll ctx (replayAll ctx st l1).1 l2).1,
           (replayAll ctx st l1).2
             ++ (replayAll ctx (replayAll ctx st l1).1 l2).2)
  | [], l2, st => by
      rw [List.nil_append, replayAll]
      rfl
  | d :: rest, l2, st => by
      rw [List.cons_append, replayAll, replayAll_append ctx rest l2 _,
        replayAll]
      rfl

theorem replayAll_late (ctx : ReplayCtx) (sym : String) (lastD : Date)
    (hfindD : ctx.staleLastDates.find? (fun p => decide (p.1 = sym))
      = some (sym, lastD))
    (hmem : (sym, StaleTickerAction.liquidate) ∈ ctx.handling)
    (hrem : sym ∉ ctx.removed)
    (hnotx : ∀ p ∈ ctx.txns_sorted, p.2.symbol = sym →
      ¬ Date.lt lastD p.2.dt.date) :
    ∀ (late : List Date) (st : ReplayState),
      (∀ d ∈ late, Date.lt lastD d) →
      (st.holdings.map Prod.fst).Nodup →
      (getQty st.holdings sym = 0
        ∨ (0 ≤ getQty st.holdings sym ∧ sym ∉ st.liquidatedSymbols)) →
      ∀ r ∈ (replayAll ctx st late).2,
        getQty r.holdings sym = 0 ∧ (r.holdings.map Prod.fst).Nodup
  | [], _, _, _, _, r, hr => by simp [replayAll] at hr
  | d :: rest, st, hall, hn, hQ, r, hr => by
      obtain ⟨hq3, hn3⟩ := replayDay_late ctx st d sym lastD hfindD hmem hrem
        hnotx (hall d (List.mem_cons_self d rest)) hn hQ
      rw [replayAll] at hr
      rcases List.mem_cons.mp hr with hr | hr
      · rw [hr, replayDay_snd_holdings]
        exact ⟨hq3, hn3⟩
      · exact replayAll_late ctx sym lastD hfindD hmem hrem hnotx rest _
          (fun d2 hd2 => hall d2 (List.mem_cons_of_mem d hd2)) hn3
          (Or.inl hq3) r hr

theorem sum_cash_eq_mul (c : ℚ) :
    ∀ (l : List LiquidationEvent),
      (∀ e ∈ l, e.cash_amount = c * e.quantity) →
      (l.map (fun e => e.cash_amount)).sum
        = c * (l.map (fun e => e.quantity)).sum
  | [], _ => by simp
  | e :: rest, h => by
      simp only [List.map_cons, List.sum_cons]
      rw [sum_cash_eq_mul c rest (fun x hx => h x (List.mem_cons_of_mem e hx)),
        h e (List.mem_cons_self e rest), mul_add]

theorem symbolContribution_zero (ctx : ReplayCtx) (dt : Date) (s : String) :
    symbolContribution ctx dt s 0 = 0 := by
  unfold symbolContribution
  cases ctx.priceData.find? (fun p => decide (p.1 = s)) <;> simp

/-- C9 (amended): in the transaction replay with the LIQUIDATE action for
`sym` (last valid price date `lastD`, last known price `lastP`), started
from a state with no events, no liquidated symbols and duplicate-free
holdings keys, over a calendar split into days at-or-before `lastD` and
days strictly after it: at most one `LiquidationEvent` is ever emitted
for `sym`; every event of `sym` carries date `lastD`, price `lastP` and
`cash_amount = lastP × quantity`, so the summed cash equals `lastP`
times the summed liquidated quantity; and PROVIDED no transaction of
`sym` is dated strictly after `lastD` and the position entering the
stale phase is not short, every recorded day after `lastD` holds `sym`
at quantity 0, contributing 0 to that day's NAV (the claim is false
without the no-late-transaction proviso — see the counterexample). -/
theorem C9_liquidation_events_and_holdings
    (ctx : ReplayCtx) (st0 : ReplayState) (early late : List Date)
    (sym : String) (lastD : Date) (lastP : ℚ)
    (hfindD : ctx.staleLastDates.find? (fun p => decide (p.1 = sym))
      = some (sym, lastD))
    (hfindP : ctx.staleLastPrices.find? (fun p => decide (p.1 = sym))
      = some (sym, lastP))
    (hmem : (sym, StaleTickerAction.liquidate) ∈ ctx.handling)
    (hrem : sym ∉ ctx.removed)
    (hnotx : ∀ p ∈ ctx.txns_sorted, p.2.symbol = sym →
      ¬ Date.lt lastD p.2.dt.date)
    (hearly : ∀ d ∈ early, ¬ Date.lt lastD d)
    (hlate : ∀ d ∈ late, Date.lt lastD d)
    (hnodup : (st0.holdings.map Prod.fst).Nodup)
    (hev0 : st0.events = []) (hliq0 : st0.liquidatedSymbols = [])
    (hq0 : 0 ≤ getQty ((replayAll ctx st0 early).1).holdings sym) :
    (((replayAll ctx st0 (early ++ late)).1.events.filter
        (fun e => decide (e.symbol = sym))).length ≤ 1)
    ∧ (∀ e ∈ (replayAll ctx st0 (early ++ late)).1.events, e.symbol = sym →
        e.price = lastP ∧ e.date = lastD
          ∧ e.cash_amount = lastP * e.quantity)
    ∧ ((((replayAll ctx st0 (early ++ late)).1.events.filter
          (fun e => decide (e.symbol = sym))).map
            (fun e => e.cash_amount)).sum
        = lastP * (((replayAll ctx st0 (early ++ late)).1.events.filter
            (fun e => decide (e.symbol = sym))).map
            (fun e => e.quantity)).sum)
    ∧ (∀ r ∈ (replayAll ctx st0 (early ++ late)).2,
        Date.lt lastD r.date → ∀ p ∈ r.holdings, p.1 = sym →
          p.2 = 0 ∧ symbolContribution ctx r.date p.1 p.2 = 0) := by
  have hg : goodEvents ctx.staleLastDates ctx.staleLastPrices
      (replayAll ctx st0 (early ++ late)).1.events
      (replayAll ctx st0 (early ++ late)).1.liquidatedSymbols := by
    apply replayAll_good
    rw [hev0, hliq0]
    exact goodEvents_nil _ _ _
  have hcontent : ∀ e ∈ (replayAll ctx st0 (early ++ late)).1.events,
      e.symbol = sym →
      e.price = lastP ∧ e.date = lastD
        ∧ e.cash_amount = lastP * e.quantity := by
    intro e he hesym
    obtain ⟨hcash, ⟨ld, hld, hdate⟩, hprice⟩ := hg.1 e he
    rw [hesym, hfindD] at hld
    injection hld with hld
    rw [hesym, hfindP] at hprice
    have hpr : e.price = lastP := hprice
    refine ⟨hpr, ?_, ?_⟩
    · rw [hdate, ← hld]
    · rw [hcash, hpr]
  refine ⟨(hg.2 sym).1, hcontent, ?_, ?_⟩
  · apply sum_cash_eq_mul
    intro e he
    have h1 := List.mem_of_mem_filter he
    have h2 : e.symbol = sym := by simpa using List.of_mem_filter he
    exact (hcontent e h1 h2).2.2
  · intro r hr hrdate p hp hpsym
    rw [replayAll_append ctx early late st0] at hr
    dsimp only at hr
    rcases List.mem_append.mp hr with hre | hrl
    · exact absurd hrdate
        (hearly r.date (replayAll_dates ctx early st0 r hre))
    · have hmid_nodup := replayAll_keys_nodup ctx early st0 hnodup
      have hmid_notliq :
          sym ∉ ((replayAll ctx st0 early).1).liquidatedSymbols := by
        apply replayAll_early_notliq ctx sym lastD hfindD early st0 hearly
        rw [hliq0]
        exact List.not_mem_nil sym
      have hrec := replayAll_late ctx sym lastD hfindD hmem hrem hnotx late _
        hlate hmid_nodup (Or.inr ⟨hq0, hmid_notliq⟩) r hrl
      have hp2 := getQty_zero_entries r.holdings sym hrec.2 hrec.1 p hp hpsym
      refine ⟨hp2, ?_⟩
      rw [hp2]
      exact symbolContribution_zero ctx r.date p.1

/-- Counterexample transactions: a BUY of the stale symbol dated two days
after its last valid price date (the engine itself allows this — the fill
price comes from the row, not the price feed). -/
def txnsC9 : List Txn :=
  [⟨⟨⟨2020, 1, 1⟩, 0⟩, "CASH", Side.deposit, 1000, 0, some 0⟩,
   ⟨⟨⟨2020, 1, 1⟩, 540⟩, "X", Side.buy, 10, 10, some 0⟩,
   ⟨⟨⟨2020, 1, 2⟩, 0⟩, "CASH", Side.deposit, 0, 0, some 0⟩,
   ⟨⟨⟨2020, 1, 3⟩, 0⟩, "X", Side.buy, 5, 10, some 0⟩]

/-- Price feed: `X` has exactly one row, 2020-01-01 at 10. -/
def pcC9 : String → PriceHistory :=
  fun s => if s = "X" then [(⟨2020, 1, 1⟩, 10)] else []

def handlingC9 : List (String × StaleTickerAction) :=
  [("X", StaleTickerAction.liquidate)]

set_option maxRecDepth 400000 in
theorem C9_counterexample :
    (calculate_nav_history_impl txnsC9 [] pcC9 handlingC9 ⟨2020, 1, 4⟩ []
        []).liquidationEvents
      = [⟨⟨2020, 1, 1⟩, "X", 10, 10, 100⟩]
    ∧ (calculate_nav_history_impl txnsC9 [] pcC9 handlingC9 ⟨2020, 1, 4⟩ []
        []).days.getLast?
      = some ⟨⟨2020, 1, 3⟩, 1000, 950, 0, 0, [("CASH", 0), ("X", 5)]⟩
    ∧ Date.lt ⟨2020, 1, 1⟩ ⟨2020, 1, 3⟩
    ∧ symbolContribution (engineCtx txnsC9 [] pcC9 handlingC9 ⟨2020, 1, 4⟩)
        ⟨2020, 1, 3⟩ "X" 5 = 50
    ∧ (50 : ℚ) ≠ 0 := by
  refine ⟨?_, ?_, ?_, ?_, ?_⟩
  · with_unfolding_all rfl
  · with_unfolding_all rfl
  · exact of_decide_eq_true (by with_unfolding_all rfl)
  · with_unfolding_all rfl
  · exact of_decide_eq_true (by with_unfolding_all rfl)

/-- Witness transactions: the counterexample scenario without the stale
BUY (and with a day-2 row so the stale phase is replayed). -/
def txnsC9w : List Txn :=
  [⟨⟨⟨2020, 1, 1⟩, 0⟩, "CASH", Side.deposit, 1000, 0, some 0⟩,
   ⟨⟨⟨2020, 1, 1⟩, 540⟩, "X", Side.buy, 10, 10, some 0⟩,
   ⟨⟨⟨2020, 1, 2⟩, 0⟩, "CASH", Side.deposit, 0, 0, some 0⟩]

def ctxC9w : ReplayCtx := engineCtx txnsC9w [] pcC9 handlingC9 ⟨2020, 1, 4⟩

def st0C9w : ReplayState := engineInitState txnsC9w handlingC9 []

set_option maxRecDepth 400000 in
theorem C9_witness :
    (((replayAll ctxC9w st0C9w
        ([⟨2020, 1, 1⟩] ++ [⟨2020, 1, 2⟩])).1.events.filter
        (fun e => decide (e.symbol = "X"))).length ≤ 1)
    ∧ ((((replayAll ctxC9w st0C9w
          ([⟨2020, 1, 1⟩] ++ [⟨2020, 1, 2⟩])).1.events.filter
          (fun e => decide (e.symbol = "X"))).map
          (fun e => e.cash_amount)).sum
        = 10 * (((replayAll ctxC9w st0C9w
            ([⟨2020, 1, 1⟩] ++ [⟨2020, 1, 2⟩])).1.events.filter
            (fun e => decide (e.symbol = "X"))).map
            (fun e => e.quantity)).sum) := by
  have happ := C9_liquidation_events_and_holdings ctxC9w st0C9w
    [⟨2020, 1, 1⟩] [⟨2020, 1, 2⟩] "X" ⟨2020, 1, 1⟩ 10
    (by with_unfolding_all rfl)
    (by with_unfolding_all rfl)
    (of_decide_eq_true (by with_unfolding_all rfl))
    (of_decide_eq_true (by with_unfolding_all rfl))
    (of_decide_eq_true (by with_unfolding_all rfl))
    (of_decide_eq_true (by with_unfolding_all rfl))
    (of_decide_eq_true (by with_unfolding_all rfl))
    (of_decide_eq_true (by with_unfolding_all rfl))
    rfl rfl
    (of_decide_eq_true (by with_unfolding_all rfl))
  exact ⟨happ.1, happ.2.2.1⟩
